import Mathlib

/-!
Verification of the SMTP transport client (`SMTPEmail` in the repository's
SMTP adapter source file) against its natural-language specification.

The adapter is effectful JavaScript/TypeScript: it drives an SMTP dialogue
over a socket.  We embed it shallowly:

* the nondeterministic environment (TCP connect, TLS upgrade, and the
  server's reply to each written command, including per-command timeouts)
  is an explicit `Network` oracle;
* the ambient clock / random generator consumed by `Date` and
  `generateMessageId` is an explicit `GenEnv`;
* thrown JS errors become `Except String`;
* the observable behaviour of one call is the returned value together with
  a trace of socket events (connection attempt, command written, TLS
  upgrade, socket destruction) and the number of server replies consumed.

Pure helpers (`validateEmail`, `buildEmailContent`, base64, `parseInt`,
`trim`) are translated directly from the source semantics of the JS
primitives they use.
-/


namespace SMTPV

/-- JavaScript whitespace (the `\s` regex class and the characters removed
by `String.prototype.trim`), by code point. -/
def jsWs (c : Char) : Bool :=
  c.toNat = 32 || c.toNat = 9 || c.toNat = 10 || c.toNat = 11 || c.toNat = 12 ||
  c.toNat = 13 || c.toNat = 0xa0 || c.toNat = 0x1680 ||
  (0x2000 ≤ c.toNat && c.toNat ≤ 0x200a) ||
  c.toNat = 0x2028 || c.toNat = 0x2029 || c.toNat = 0x202f ||
  c.toNat = 0x205f || c.toNat = 0x3000 || c.toNat = 0xfeff

/-- Model of `String.prototype.trim`: strip leading and trailing JS whitespace. -/
def jsTrim (s : String) : String :=
  String.mk (((s.toList.dropWhile jsWs).reverse.dropWhile jsWs).reverse)

/-- A character allowed in the local part and in the domain part of the
validation regex `[^\s@]`: neither whitespace nor `@`. -/
def okChar (c : Char) : Bool := !jsWs c && c != '@'

/-- A string free of JS whitespace. -/
def noWsStr (s : String) : Bool := s.toList.all fun c => !jsWs c

/-- Split a character list at its first `'@'`; `none` when there is no `'@'`. -/
def splitAtAt : List Char → Option (List Char × List Char)
  | [] => none
  | c :: cs =>
    if c = '@' then some ([], cs)
    else match splitAtAt cs with
      | none => none
      | some (l, d) => some (c :: l, d)

/-- The domain part of the regex demands a `'.'` with at least one character
before it and one after it: `[^\s@]+\.[^\s@]+` (character-class membership is
checked separately).  On the list `d` this says `'.'` occurs strictly inside. -/
def hasInnerDot : List Char → Bool
  | [] => false
  | _ :: rest => rest.dropLast.contains '.'

/-- The validation test on the character list: the regex
`/^[^\s@]+@[^\s@]+\.[^\s@]+$/`.  Because `@` is excluded from both
character classes, the regex's `@` can only match the first `@` of the
string, so the decomposition is unique and the test is equivalent to:
split at the first `@`; the local part is nonempty and all `[^\s@]`; the
domain part is all `[^\s@]` and contains an inner dot. -/
def validL (cs : List Char) : Bool :=
  match splitAtAt cs with
  | none => false
  | some (l, d) => !l.isEmpty && l.all okChar && d.all okChar && hasInnerDot d

/-- Model of `SMTPEmail.validateEmail`: `emailRegex.test(email)` for
`/^[^\s@]+@[^\s@]+\.[^\s@]+$/`. -/
def validateEmail (email : String) : Bool := validL email.toList

/-- A decimal digit character, by code point. -/
def isDig (c : Char) : Bool := 48 ≤ c.toNat && c.toNat ≤ 57

/-- Numeric value of a decimal digit character. -/
def digitVal (c : Char) : Nat := c.toNat - 48

/-- Decimal value of a digit list, most significant first. -/
def decValue (ds : List Char) : Nat := ds.foldl (fun a c => a * 10 + digitVal c) 0

/-- Leading decimal digits of a character list; `none` if there are none
(that is JS `parseInt`'s NaN case). -/
def digitsVal (cs : List Char) : Option Nat :=
  match cs.takeWhile isDig with
  | [] => none
  | ds => some (decValue ds)

/-- JS `parseInt(s)` (radix 10) on a character list: skip leading
whitespace, accept one optional sign, then read leading decimal digits;
`none` models NaN. -/
def jsParseIntL (cs : List Char) : Option Int :=
  match cs.dropWhile jsWs with
  | '+' :: rest => (digitsVal rest).map (fun n => (n : Int))
  | '-' :: rest => (digitsVal rest).map (fun n => -(n : Int))
  | rest => (digitsVal rest).map (fun n => (n : Int))

/-- JS `parseInt(s)` (radix 10). -/
def jsParseInt (s : String) : Option Int := jsParseIntL s.toList

/-- JS `s.substring(0, 3)`. -/
def strTake3 (s : String) : String := String.mk (s.toList.take 3)

/-- Character `n` (0 ≤ n < 64) of the standard base64 alphabet. -/
def b64Char (n : Nat) : Char :=
  if n < 26 then Char.ofNat (65 + n)
  else if n < 52 then Char.ofNat (97 + (n - 26))
  else if n < 62 then Char.ofNat (48 + (n - 52))
  else if n = 62 then '+' else '/'

/-- Standard base64 of a byte list, with `=` padding. -/
def b64Groups : List Nat → List Char
  | [] => []
  | [a] => [b64Char (a / 4), b64Char (a % 4 * 16), '=', '=']
  | [a, b] => [b64Char (a / 4), b64Char (a % 4 * 16 + b / 16), b64Char (b % 16 * 4), '=']
  | a :: b :: c :: rest =>
    b64Char (a / 4) :: b64Char (a % 4 * 16 + b / 16) :: b64Char (b % 16 * 4 + c / 64) ::
      b64Char (c % 64) :: b64Groups rest

/-- UTF-8 bytes of one code point (what `Buffer.from(string)` produces). -/
def utf8Bytes (c : Char) : List Nat :=
  let n := c.toNat
  if n < 128 then [n]
  else if n < 2048 then [192 + n / 64, 128 + n % 64]
  else if n < 65536 then [224 + n / 4096, 128 + n / 64 % 64, 128 + n % 64]
  else [240 + n / 262144, 128 + n / 4096 % 64, 128 + n / 64 % 64, 128 + n % 64]

/-- Model of `Buffer.from(s).toString('base64')`. -/
def b64encode (s : String) : String :=
  String.mk (b64Groups ((s.toList.map utf8Bytes).flatten))

/-- Model of `Array.prototype.join('\r\n')`. -/
def joinCRLF : List String → String
  | [] => ""
  | [x] => x
  | x :: xs => x ++ "\r\n" ++ joinCRLF xs

/-- Model of `Array.prototype.join(', ')`. -/
def joinComma : List String → String
  | [] => ""
  | [x] => x
  | x :: xs => x ++ ", " ++ joinComma xs

/-- A TS `string | string[]` value. -/
inductive StrField where
  | one (s : String)
  | many (l : List String)
deriving DecidableEq

/-- Model of `Array.isArray(x) ? x : [x]`. -/
def StrField.toList : StrField → List String
  | .one s => [s]
  | .many l => l

/-- Model of `Array.isArray(x) ? x.join(', ') : x`. -/
def StrField.joined : StrField → String
  | .one s => s
  | .many l => joinComma l

/-- The `EmailMessage` record (the `attachments` field of the shared type is
never read by the SMTP adapter and is omitted). -/
structure EmailMessage where
  «to» : StrField
  «from» : String
  subject : String
  text : Option String := none
  html : Option String := none
  cc : Option StrField := none
  bcc : Option StrField := none
  replyTo : Option String := none
deriving DecidableEq

/-- JS truthiness of an optional string field (`undefined` and `""` are
falsy). -/
def truthyS : Option String → Bool
  | none => false
  | some s => !s.isEmpty

/-- JS truthiness of an optional `string | string[]` field (`undefined` and
`""` are falsy; every array, even `[]`, is truthy). -/
def truthyF : Option StrField → Bool
  | none => false
  | some (.one s) => !s.isEmpty
  | some (.many _) => true

/-- The recipient list of an optional field, as the source computes it once
the field tested truthy. -/
def fieldList : Option StrField → List String
  | none => []
  | some f => f.toList

/-- The comma-joined header text of an optional field. -/
def fieldJoined : Option StrField → String
  | none => ""
  | some f => f.joined

/-- The addresses an optional `cc`/`bcc` field denotes: an absent field and
an empty-string field (falsy in JS, skipped by the source) denote no
address. -/
def fieldAddrs : Option StrField → List String
  | none => []
  | some (.one s) => if s = "" then [] else [s]
  | some (.many l) => l

/-- Model of `SMTPEmail.generateMessageId`: `Date.now()` and a random token joined
with the fixed domain suffix.  The two ambient values are parameters. -/
def generateMessageId (timestamp : Nat) (random : String) : String :=
  toString timestamp ++ "." ++ random ++ "@synet.email"

/-- Ambient clock/randomness consumed during one `send` call: the header
`Date` string, and the `(Date.now(), Math.random())` pairs of the two
`generateMessageId` calls (first the one inside `buildEmailContent`, then
the one that makes the returned `messageId`). -/
structure GenEnv where
  dateStr : String
  t1 : Nat
  r1 : String
  t2 : Nat
  r2 : String
deriving DecidableEq

def GenEnv.msgId1 (e : GenEnv) : String := generateMessageId e.t1 e.r1

def GenEnv.msgId2 (e : GenEnv) : String := generateMessageId e.t2 e.r2

/-- Model of `SMTPEmail.buildEmailContent`, with the ambient date and message id made
explicit.  Each `lines.push(...)` of the source is an append. -/
def buildEmailContent (env : GenEnv) (m : EmailMessage) : String :=
  let lines : List String := ["From: " ++ m.«from»]
  let lines := lines ++ ["To: " ++ m.«to».joined]
  let lines := if truthyF m.cc then lines ++ ["Cc: " ++ fieldJoined m.cc] else lines
  let lines := if truthyS m.replyTo then lines ++ ["Reply-To: " ++ m.replyTo.getD ""] else lines
  let lines := lines ++ ["Subject: " ++ m.subject]
  let lines := lines ++ ["Date: " ++ env.dateStr]
  let lines := lines ++ ["Message-ID: <" ++ env.msgId1 ++ ">"]
  let lines := if truthyS m.html then
      lines ++ ["MIME-Version: 1.0", "Content-Type: text/html; charset=utf-8"]
    else lines ++ ["Content-Type: text/plain; charset=utf-8"]
  let lines := lines ++ [""]
  let lines := if truthyS m.html then lines ++ [m.html.getD ""]
    else if truthyS m.text then lines ++ [m.text.getD ""]
    else lines
  joinCRLF lines

/-- The `auth` part of `SMTPConfig`. -/
structure SMTPAuth where
  user : String
  pass : String
deriving DecidableEq

/-- The `SMTPConfig` record; the constructor's 30000 ms default is the field default. -/
structure SMTPConfig where
  host : String
  port : Nat
  secure : Bool := false
  auth : Option SMTPAuth := none
  timeout : Nat := 30000
deriving DecidableEq

/-- The `EmailResult` record. -/
structure EmailResult where
  success : Bool
  messageId : Option String := none
  error : Option String := none
deriving DecidableEq

/-- What the server does with one written command: deliver a complete
(CRLF-terminated) accumulated reply, or let the per-command timeout fire. -/
inductive CmdReply where
  | reply (s : String)
  | timeout
deriving DecidableEq

/-- The environment of one call: outcome of the TCP/TLS connection attempt,
outcome of the STARTTLS in-place upgrade, and the server reply to the
`i`-th written command line (the error strings model the messages of the
rejected promises, e.g. `"Connection timeout"`). -/
structure Network where
  connect : Except String Unit
  upgrade : Except String Unit
  replies : Nat → CmdReply

/-- The call site inside the client that wrote a command line (pure
instrumentation: every line still goes through the one `sendCommand`). -/
inductive Tag where
  | ehlo | starttls | authLogin | authUser | authPass
  | mailFrom | rcptTo | dataCmd | payload | quit
deriving DecidableEq

/-- Observable socket events of one call. -/
inductive Ev where
  | connect (secure : Bool)
  | cmd (tag : Tag) (line : String)
  | upgraded
  | destroyed
deriving DecidableEq

/-- Session state: the event trace so far and the index of the next server
reply to consume (one reply per written command). -/
structure St where
  trace : List Ev
  idx : Nat
deriving DecidableEq

/-- Sequencing with JS exception semantics: effects already performed
(trace, consumed replies) persist when an error is thrown. -/
def bindE {α β : Type} (r : Except String α × St) (f : α → St → Except String β × St) :
    Except String β × St :=
  match r with
  | (.ok a, st) => f a st
  | (.error e, st) => (.error e, st)

/-- Model of `SMTPEmail.sendCommand`: write `command`, wait for the accumulated
reply to end in CRLF (or time out), then classify it by
`parseInt(response.substring(0, 3))`: a code `≥ 400` rejects with
`"SMTP Error <code>: <trimmed response>"`, anything else (including NaN)
resolves with the trimmed response. -/
def sendCommand (net : Network) (tag : Tag) (command : String) (st : St) :
    Except String String × St :=
  let st' : St := { trace := st.trace ++ [Ev.cmd tag command], idx := st.idx + 1 }
  match net.replies st.idx with
  | .timeout => (.error ("Command timeout: " ++ command), st')
  | .reply resp =>
    match jsParseInt (strTake3 resp) with
    | some code =>
      if 400 ≤ code then
        (.error ("SMTP Error " ++ toString code ++ ": " ++ jsTrim resp), st')
      else (.ok (jsTrim resp), st')
    | none => (.ok (jsTrim resp), st')

/-- Model of `SMTPEmail.createConnection`: open the socket (TLS immediately when
`secure`, else plain TCP); the attempt itself is an observable event. -/
def createConnection (cfg : SMTPConfig) (net : Network) (st : St) :
    Except String Unit × St :=
  let st' : St := { st with trace := st.trace ++ [Ev.connect cfg.secure] }
  match net.connect with
  | .ok _ => (.ok (), st')
  | .error e => (.error e, st')

/-- Model of `SMTPEmail.upgradeToTLS`: wrap the existing socket in TLS in place. -/
def upgradeToTLS (net : Network) (st : St) : Except String Unit × St :=
  match net.upgrade with
  | .ok _ => (.ok (), { st with trace := st.trace ++ [Ev.upgraded] })
  | .error e => (.error e, st)

/-- Model of `SMTPEmail.authenticate`: `AUTH LOGIN`, then the username and the
password, each base64 encoded on its own command line. -/
def authenticate (cfg : SMTPConfig) (net : Network) (st : St) :
    Except String Unit × St :=
  match cfg.auth with
  | none => (.error "Authentication requested but no auth config provided", st)
  | some a =>
    bindE (sendCommand net .authLogin "AUTH LOGIN" st) fun _ st =>
    bindE (sendCommand net .authUser (b64encode a.user) st) fun _ st =>
    bindE (sendCommand net .authPass (b64encode a.pass) st) fun _ st =>
    (.ok (), st)

/-- The `for` loop issuing one `RCPT TO` per recipient. -/
def rcptAll (net : Network) : List String → St → Except String Unit × St
  | [], st => (.ok (), st)
  | e :: rest, st =>
    bindE (sendCommand net .rcptTo ("RCPT TO:<" ++ e ++ ">") st) fun _ st =>
    rcptAll net rest st

/-- The test `!this.config.secure && this.config.port !== 465`: the STARTTLS
condition tested by both `send` and `checkConnection`. -/
def needUpgrade (cfg : SMTPConfig) : Bool := !cfg.secure && cfg.port != 465

/-- The STARTTLS block of `send`/`checkConnection`: `STARTTLS`, in-place
TLS upgrade, then `EHLO localhost` again. -/
def starttlsPhase (cfg : SMTPConfig) (net : Network) (st : St) :
    Except String Unit × St :=
  if needUpgrade cfg then
    bindE (sendCommand net .starttls "STARTTLS" st) fun _ st =>
    bindE (upgradeToTLS net st) fun _ st =>
    bindE (sendCommand net .ehlo "EHLO localhost" st) fun _ st =>
    (.ok (), st)
  else (.ok (), st)

/-- Model of `if (this.config.auth) await this.authenticate(socket)`. -/
def authPhase (cfg : SMTPConfig) (net : Network) (st : St) :
    Except String Unit × St :=
  if cfg.auth.isSome then authenticate cfg net st else (.ok (), st)

/-- The validation loop of `send`: the first address of `to` that fails
`validateEmail`, if any. -/
def firstInvalid : List String → Option String
  | [] => none
  | e :: rest => if validateEmail e then firstInvalid rest else some e

/-- The dialogue part of `SMTPEmail.send`, from the first `EHLO` to the
`socket.destroy()` after `QUIT`. -/
def sendDialogue (cfg : SMTPConfig) (net : Network) (env : GenEnv)
    (m : EmailMessage) (st : St) : Except String EmailResult × St :=
  bindE (sendCommand net .ehlo "EHLO localhost" st) fun _ st =>
  bindE (starttlsPhase cfg net st) fun _ st =>
  bindE (authPhase cfg net st) fun _ st =>
  bindE (sendCommand net .mailFrom ("MAIL FROM:<" ++ m.«from» ++ ">") st) fun _ st =>
  bindE (rcptAll net m.«to».toList st) fun _ st =>
  bindE (if truthyF m.cc then rcptAll net (fieldList m.cc) st else (.ok (), st)) fun _ st =>
  bindE (if truthyF m.bcc then rcptAll net (fieldList m.bcc) st else (.ok (), st)) fun _ st =>
  bindE (sendCommand net .dataCmd "DATA" st) fun _ st =>
  bindE (sendCommand net .payload (buildEmailContent env m ++ "\r\n.") st) fun _ st =>
  bindE (sendCommand net .quit "QUIT" st) fun _ st =>
  (.ok { success := true, messageId := some env.msgId2 },
   { st with trace := st.trace ++ [Ev.destroyed] })

/-- Model of `SMTPEmail.send`: validate `to` then `from`, open the socket, run the
dialogue; the surrounding `try/catch` converts any thrown error into
`{success:false, error}`. -/
def send (cfg : SMTPConfig) (net : Network) (env : GenEnv) (m : EmailMessage) :
    EmailResult × St :=
  let body : Except String EmailResult × St :=
    match firstInvalid m.«to».toList with
    | some a =>
      (.ok { success := false, error := some ("Invalid email address: " ++ a) }, ⟨[], 0⟩)
    | none =>
      if validateEmail m.«from» then
        bindE (createConnection cfg net ⟨[], 0⟩) fun _ st =>
        sendDialogue cfg net env m st
      else
        (.ok { success := false,
               error := some ("Invalid from email address: " ++ m.«from») }, ⟨[], 0⟩)
  match body with
  | (.ok r, st) => (r, st)
  | (.error e, st) => ({ success := false, error := some e }, st)

/-- The dialogue part of `SMTPEmail.checkConnection`. -/
def checkDialogue (cfg : SMTPConfig) (net : Network) (st : St) :
    Except String Unit × St :=
  bindE (sendCommand net .ehlo "EHLO localhost" st) fun _ st =>
  bindE (starttlsPhase cfg net st) fun _ st =>
  bindE (authPhase cfg net st) fun _ st =>
  bindE (sendCommand net .quit "QUIT" st) fun _ st =>
  (.ok (), { st with trace := st.trace ++ [Ev.destroyed] })

/-- Model of `SMTPEmail.checkConnection`: the handshake (with optional STARTTLS and
authentication) followed by `QUIT`; any thrown error is caught and
converted into `false`. -/
def checkConnection (cfg : SMTPConfig) (net : Network) : Bool × St :=
  match bindE (createConnection cfg net ⟨[], 0⟩)
      (fun _ st => checkDialogue cfg net st) with
  | (.ok _, st) => (true, st)
  | (.error _, st) => (false, st)


/-! ### A script view of the dialogues

Both dialogues are straight-line sequences of `sendCommand`/`upgradeToTLS`
steps.  To reason uniformly about traces, reply consumption and abort
behaviour we re-express them as an explicit list of protocol actions run
by one driver, and prove the re-expression equal to the definitions above.
-/

/-- One protocol action of a dialogue. -/
inductive PAct where
  | pcmd (tag : Tag) (line : String)
  | pupgrade
deriving DecidableEq

/-- Run a list of protocol actions, aborting at the first failure. -/
def runActs (net : Network) : List PAct → St → Except String Unit × St
  | [], st => (.ok (), st)
  | .pcmd t c :: rest, st =>
    bindE (sendCommand net t c st) fun _ st => runActs net rest st
  | .pupgrade :: rest, st =>
    bindE (upgradeToTLS net st) fun _ st => runActs net rest st

/-- The trace events an action contributes when it succeeds. -/
def actEvs : PAct → List Ev
  | .pcmd t c => [Ev.cmd t c]
  | .pupgrade => [Ev.upgraded]

/-- The full trace of a successfully executed action list. -/
def actsEvs (l : List PAct) : List Ev := (l.map actEvs).flatten

/-- How many server replies an action consumes. -/
def actCost : PAct → Nat
  | .pcmd _ _ => 1
  | .pupgrade => 0

/-- How many server replies an action list consumes when it succeeds. -/
def actsCost (l : List PAct) : Nat := (l.map actCost).sum

def starttlsActs (cfg : SMTPConfig) : List PAct :=
  if needUpgrade cfg then
    [.pcmd .starttls "STARTTLS", .pupgrade, .pcmd .ehlo "EHLO localhost"]
  else []

def authActs (cfg : SMTPConfig) : List PAct :=
  match cfg.auth with
  | none => []
  | some a => [.pcmd .authLogin "AUTH LOGIN", .pcmd .authUser (b64encode a.user),
               .pcmd .authPass (b64encode a.pass)]

def rcptActs (l : List String) : List PAct :=
  l.map fun e => .pcmd .rcptTo ("RCPT TO:<" ++ e ++ ">")

/-- The action list of `send`'s dialogue. -/
def sendActs (cfg : SMTPConfig) (env : GenEnv) (m : EmailMessage) : List PAct :=
  [.pcmd .ehlo "EHLO localhost"] ++ starttlsActs cfg ++ authActs cfg ++
  [.pcmd .mailFrom ("MAIL FROM:<" ++ m.«from» ++ ">")] ++ rcptActs m.«to».toList ++
  (if truthyF m.cc then rcptActs (fieldList m.cc) else []) ++
  (if truthyF m.bcc then rcptActs (fieldList m.bcc) else []) ++
  [.pcmd .dataCmd "DATA", .pcmd .payload (buildEmailContent env m ++ "\r\n."),
   .pcmd .quit "QUIT"]

/-- The action list of `checkConnection`'s dialogue. -/
def checkActs (cfg : SMTPConfig) : List PAct :=
  [.pcmd .ehlo "EHLO localhost"] ++ starttlsActs cfg ++ authActs cfg ++
  [.pcmd .quit "QUIT"]

/-- Whether the server's reply to command `i` passes `sendCommand`'s
classification (a parsed code `< 400`, or no parsable code). -/
def replyOk (net : Network) (i : Nat) : Bool :=
  match net.replies i with
  | .timeout => false
  | .reply resp =>
    match jsParseInt (strTake3 resp) with
    | some code => decide (code < 400)
    | none => true

/-- Trace events that are written command lines. -/
def isCmdEv : Ev → Bool
  | .cmd _ _ => true
  | _ => false

/-- Number of command lines in a trace fragment. -/
def countCmds (l : List Ev) : Nat := (l.filter isCmdEv).length

/-- The value of the reply's leading 3-digit status code, when the
first three characters exist and are decimal digits. -/
def leading3 (s : String) : Option Nat :=
  match s.toList with
  | a :: b :: c :: _ =>
    if isDig a && isDig b && isDig c then
      some (digitVal a * 100 + digitVal b * 10 + digitVal c)
    else none
  | _ => none

/-- Concrete environments used by witnesses. -/
def wNet250 : Network := ⟨.ok (), .ok (), fun _ => .reply "250 OK\r\n"⟩

def wNet550 : Network := ⟨.ok (), .ok (), fun _ => .reply "550 mailbox unavailable\r\n"⟩

def wEnv : GenEnv := ⟨"Wed, 01 Jan 2025 00:00:00 GMT", 1, "r0", 2, "r1"⟩

def wMsg : EmailMessage :=
  { «to» := .one "a@b.cd", «from» := "c@d.ef", subject := "s", text := some "hello" }

def wMsgBadTo : EmailMessage :=
  { «to» := .many ["a@b.cd", "oops"], «from» := "c@d.ef", subject := "s" }

def wMsgBadCc : EmailMessage :=
  { «to» := .one "a@b.cd", «from» := "c@d.ef", subject := "s",
    cc := some (.one "not-an-address"), bcc := some (.many ["@@"]) }

def wCfg587 : SMTPConfig := { host := "example.org", port := 587 }

def wCfgTLS : SMTPConfig := { host := "example.org", port := 465, secure := true }

/-- Network whose every reply is a malformed line not starting with a
digit (it parses as the negative number `-22`, still a success). -/
def wNetWeird : Network := ⟨.ok (), .ok (), fun _ => .reply "-22 crazy\r\n"⟩

/-- Whether a trace event is a command line written by the call site `t`. -/
def evIsTag (t : Tag) : Ev → Bool
  | .cmd t' _ => t' == t
  | _ => false

/-- Whether a protocol action is a command of the call site `t`. -/
def actIsTag (t : Tag) : PAct → Bool
  | .pcmd t' _ => t' == t
  | .pupgrade => false

/-- The dialogue actions of `send` after the (optional) STARTTLS block. -/
def sendTail (cfg : SMTPConfig) (env : GenEnv) (m : EmailMessage) : List PAct :=
  authActs cfg ++
  [.pcmd .mailFrom ("MAIL FROM:<" ++ m.«from» ++ ">")] ++ rcptActs m.«to».toList ++
  (if truthyF m.cc then rcptActs (fieldList m.cc) else []) ++
  (if truthyF m.bcc then rcptActs (fieldList m.bcc) else []) ++
  [.pcmd .dataCmd "DATA", .pcmd .payload (buildEmailContent env m ++ "\r\n."),
   .pcmd .quit "QUIT"]

/-- The dialogue actions of `checkConnection` after the STARTTLS block. -/
def checkTail (cfg : SMTPConfig) : List PAct := authActs cfg ++ [.pcmd .quit "QUIT"]

def wCfgFull : SMTPConfig := { host := "example.org", port := 587, auth := some ⟨"u", "p"⟩ }

def wMsgFull : EmailMessage :=
  { «to» := .many ["a@b.cd", "e@f.gh"], «from» := "c@d.ef", subject := "s",
    text := some "t", cc := some (.one "x@y.zw"), bcc := some (.many ["q@r.st"]) }

def wCfgAuth : SMTPConfig :=
  { host := "example.org", port := 465, secure := true, auth := some ⟨"u", "p"⟩ }

/-- Network that accepts everything except the final `QUIT` (command
index 4 after `EHLO` and the three `AUTH LOGIN` lines). -/
def wNetQuitFail : Network :=
  ⟨.ok (), .ok (), fun j => if j = 4 then .reply "500 bye\r\n" else .reply "250 ok\r\n"⟩

/-- The header block `buildEmailContent` produces, as a line list: the
claimed order, with the optional lines keyed on JS truthiness. -/
def headerLines (env : GenEnv) (m : EmailMessage) : List String :=
  ["From: " ++ m.«from», "To: " ++ m.«to».joined] ++
  (if truthyF m.cc then ["Cc: " ++ fieldJoined m.cc] else []) ++
  (if truthyS m.replyTo then ["Reply-To: " ++ m.replyTo.getD ""] else []) ++
  ["Subject: " ++ m.subject, "Date: " ++ env.dateStr,
   "Message-ID: <" ++ env.msgId1 ++ ">"] ++
  (if truthyS m.html then
     ["MIME-Version: 1.0", "Content-Type: text/html; charset=utf-8"]
   else ["Content-Type: text/plain; charset=utf-8"])

/-- The body lines: `html` when truthy, else `text` when truthy, else
nothing at all. -/
def bodyLines (m : EmailMessage) : List String :=
  if truthyS m.html then [m.html.getD ""]
  else if truthyS m.text then [m.text.getD ""]
  else []

/-- Modelled from the words of the claim: headers in the stated order with
`Cc`/`Reply-To` present iff the field is present (`some`), the
MIME/`text/html` pair iff `html` is present, one blank line, then the body,
`html` when present and otherwise `text`. -/
def claimedContentC9 (env : GenEnv) (m : EmailMessage) : String :=
  joinCRLF
    (["From: " ++ m.«from», "To: " ++ m.«to».joined] ++
     (if m.cc.isSome then ["Cc: " ++ fieldJoined m.cc] else []) ++
     (if m.replyTo.isSome then ["Reply-To: " ++ m.replyTo.getD ""] else []) ++
     ["Subject: " ++ m.subject, "Date: " ++ env.dateStr,
      "Message-ID: <" ++ env.msgId1 ++ ">"] ++
     (if m.html.isSome then
        ["MIME-Version: 1.0", "Content-Type: text/html; charset=utf-8"]
      else ["Content-Type: text/plain; charset=utf-8"])) ++
  "\r\n\r\n" ++ (if m.html.isSome then m.html.getD "" else m.text.getD "")

/-- A message whose `html` field is present but empty. -/
def wMsgHtmlEmpty : EmailMessage :=
  { «to» := .one "a@b.cd", «from» := "c@d.ef", subject := "s",
    html := some "", text := some "t" }

theorem bindE_okCase {α β : Type} (a : α) (st : St)
    (f : α → St → Except String β × St) : bindE (.ok a, st) f = f a st := rfl

theorem bindE_errCase {α β : Type} (e : String) (st : St)
    (f : α → St → Except String β × St) : bindE (.error e, st) f = (.error e, st) := rfl

theorem bindE_assoc {α β γ : Type} (r : Except String α × St)
    (f : α → St → Except String β × St) (g : β → St → Except String γ × St) :
    bindE (bindE r f) g = bindE r (fun a st => bindE (f a st) g) := by
  rcases r with ⟨x, st⟩
  cases x <;> rfl

theorem runActs_nil (net : Network) (st : St) : runActs net [] st = (.ok (), st) := rfl

theorem runActs_cons_cmd (net : Network) (t : Tag) (c : String) (l : List PAct) (st : St) :
    runActs net (.pcmd t c :: l) st =
      bindE (sendCommand net t c st) fun _ st => runActs net l st := rfl

theorem runActs_cons_up (net : Network) (l : List PAct) (st : St) :
    runActs net (.pupgrade :: l) st =
      bindE (upgradeToTLS net st) fun _ st => runActs net l st := rfl

theorem runActs_append (net : Network) (l₁ l₂ : List PAct) (st : St) :
    runActs net (l₁ ++ l₂) st =
      bindE (runActs net l₁ st) fun _ st => runActs net l₂ st := by
  induction l₁ generalizing st with
  | nil => rfl
  | cons a rest ih =>
    cases a with
    | pcmd t c =>
      simp only [List.cons_append, runActs_cons_cmd, bindE_assoc]
      exact congrArg _ (funext fun v => funext fun st => ih st)
    | pupgrade =>
      simp only [List.cons_append, runActs_cons_up, bindE_assoc]
      exact congrArg _ (funext fun v => funext fun st => ih st)

theorem starttlsPhase_eq (cfg : SMTPConfig) (net : Network) (st : St) :
    starttlsPhase cfg net st = runActs net (starttlsActs cfg) st := by
  unfold starttlsPhase starttlsActs
  split <;> rfl

theorem authPhase_eq (cfg : SMTPConfig) (net : Network) (st : St) :
    authPhase cfg net st = runActs net (authActs cfg) st := by
  unfold authPhase authActs
  cases h : cfg.auth with
  | none => simp [h, authenticate, runActs_nil]
  | some a => simp [h, authenticate, runActs_cons_cmd, runActs_nil]

theorem rcptAll_eq (net : Network) (l : List String) (st : St) :
    rcptAll net l st = runActs net (rcptActs l) st := by
  induction l generalizing st with
  | nil => rfl
  | cons e rest ih =>
    simp only [rcptAll, rcptActs, List.map_cons, runActs_cons_cmd]
    exact congrArg _ (funext fun v => funext fun st => ih st)

theorem sendDialogue_eq (cfg : SMTPConfig) (net : Network) (env : GenEnv)
    (m : EmailMessage) (st : St) :
    sendDialogue cfg net env m st =
      bindE (runActs net (sendActs cfg env m) st) fun _ st =>
        (.ok { success := true, messageId := some env.msgId2 },
         { st with trace := st.trace ++ [Ev.destroyed] }) := by
  cases hcc : truthyF m.cc <;> cases hbcc : truthyF m.bcc <;>
    simp only [sendDialogue, sendActs, hcc, hbcc, if_true, if_false,
      Bool.false_eq_true, starttlsPhase_eq, authPhase_eq, rcptAll_eq,
      runActs_append, runActs_cons_cmd, runActs_nil, bindE_assoc, bindE_okCase]

theorem checkDialogue_eq (cfg : SMTPConfig) (net : Network) (st : St) :
    checkDialogue cfg net st =
      bindE (runActs net (checkActs cfg) st) fun _ st =>
        (.ok (), { st with trace := st.trace ++ [Ev.destroyed] }) := by
  simp only [checkDialogue, checkActs, starttlsPhase_eq, authPhase_eq,
    runActs_append, runActs_cons_cmd, runActs_nil, bindE_assoc, bindE_okCase]

theorem countCmds_nil : countCmds [] = 0 := rfl

theorem countCmds_cons_cmd (t : Tag) (c : String) (l : List Ev) :
    countCmds (Ev.cmd t c :: l) = countCmds l + 1 := by
  simp [countCmds, isCmdEv, List.filter]

theorem countCmds_cons_up (l : List Ev) :
    countCmds (Ev.upgraded :: l) = countCmds l := by
  simp [countCmds, isCmdEv, List.filter]

theorem actsEvs_nil : actsEvs [] = [] := rfl

theorem actsEvs_cons (a : PAct) (l : List PAct) :
    actsEvs (a :: l) = actEvs a ++ actsEvs l := by
  simp [actsEvs]

theorem actsEvs_append (l₁ l₂ : List PAct) :
    actsEvs (l₁ ++ l₂) = actsEvs l₁ ++ actsEvs l₂ := by
  simp [actsEvs]

theorem actsCost_cons (a : PAct) (l : List PAct) :
    actsCost (a :: l) = actCost a + actsCost l := by
  simp [actsCost]

theorem actsCost_append (l₁ l₂ : List PAct) :
    actsCost (l₁ ++ l₂) = actsCost l₁ + actsCost l₂ := by
  simp [actsCost]

theorem destroyed_not_actsEvs (l : List PAct) : Ev.destroyed ∉ actsEvs l := by
  induction l with
  | nil => simp [actsEvs]
  | cons a rest ih =>
    rw [actsEvs_cons]
    intro h
    rcases List.mem_append.1 h with h | h
    · cases a <;> simp [actEvs] at h
    · exact ih h

theorem sendCommand_snd (net : Network) (t : Tag) (c : String) (st : St) :
    (sendCommand net t c st).2 = ⟨st.trace ++ [Ev.cmd t c], st.idx + 1⟩ := by
  unfold sendCommand
  cases net.replies st.idx with
  | timeout => rfl
  | reply resp =>
    dsimp only
    cases jsParseInt (strTake3 resp) with
    | none => rfl
    | some code =>
      dsimp only
      split <;> rfl

theorem sendCommand_okStep (net : Network) (t : Tag) (c : String) (st : St)
    (h : replyOk net st.idx = true) :
    ∃ v, sendCommand net t c st = (.ok v, ⟨st.trace ++ [Ev.cmd t c], st.idx + 1⟩) := by
  unfold replyOk at h
  unfold sendCommand
  cases hr : net.replies st.idx with
  | timeout => rw [hr] at h; dsimp only at h; exact absurd h (by simp)
  | reply resp =>
    rw [hr] at h
    dsimp only at h ⊢
    cases hp : jsParseInt (strTake3 resp) with
    | none => exact ⟨jsTrim resp, rfl⟩
    | some code =>
      rw [hp] at h
      dsimp only at h ⊢
      simp only [decide_eq_true_eq] at h
      rw [if_neg (by omega)]
      exact ⟨jsTrim resp, rfl⟩

theorem sendCommand_failStep (net : Network) (t : Tag) (c : String) (st : St)
    (h : replyOk net st.idx = false) :
    ∃ e, sendCommand net t c st = (.error e, ⟨st.trace ++ [Ev.cmd t c], st.idx + 1⟩) := by
  unfold replyOk at h
  unfold sendCommand
  cases hr : net.replies st.idx with
  | timeout => exact ⟨_, rfl⟩
  | reply resp =>
    rw [hr] at h
    dsimp only at h ⊢
    cases hp : jsParseInt (strTake3 resp) with
    | none => rw [hp] at h; dsimp only at h; exact absurd h (by simp)
    | some code =>
      rw [hp] at h
      dsimp only at h ⊢
      simp only [decide_eq_false_iff_not, not_lt] at h
      rw [if_pos h]
      exact ⟨_, rfl⟩

theorem sendCommand_err400 (net : Network) (t : Tag) (c : String) (st : St)
    (resp : String) (code : Int) (hr : net.replies st.idx = .reply resp)
    (hp : jsParseInt (strTake3 resp) = some code) (hc : 400 ≤ code) :
    sendCommand net t c st =
      (.error ("SMTP Error " ++ toString code ++ ": " ++ jsTrim resp),
       ⟨st.trace ++ [Ev.cmd t c], st.idx + 1⟩) := by
  unfold sendCommand
  rw [hr]
  dsimp only
  rw [hp]
  dsimp only
  rw [if_pos hc]

theorem upgrade_okStep (net : Network) (st : St) (h : net.upgrade = .ok ()) :
    upgradeToTLS net st = (.ok (), { st with trace := st.trace ++ [Ev.upgraded] }) := by
  unfold upgradeToTLS
  rw [h]

theorem upgrade_errStep (net : Network) (st : St) (e : String)
    (h : net.upgrade = .error e) : upgradeToTLS net st = (.error e, st) := by
  unfold upgradeToTLS
  rw [h]

/-- Any run of an action list appends a prefix of the list's full event
trace, and consumes exactly one reply per command event appended. -/
theorem runActs_run (net : Network) (l : List PAct) : ∀ st : St,
    ∃ δ, (runActs net l st).2.trace = st.trace ++ δ ∧ δ <+: actsEvs l ∧
      (runActs net l st).2.idx = st.idx + countCmds δ := by
  induction l with
  | nil =>
    intro st
    exact ⟨[], by simp [runActs_nil, countCmds_nil]⟩
  | cons a rest ih =>
    intro st
    cases a with
    | pcmd t c =>
      cases hok : replyOk net st.idx with
      | true =>
        obtain ⟨v, hv⟩ := sendCommand_okStep net t c st hok
        rw [runActs_cons_cmd, hv, bindE_okCase]
        obtain ⟨δ', h1, h2, h3⟩ := ih ⟨st.trace ++ [Ev.cmd t c], st.idx + 1⟩
        refine ⟨Ev.cmd t c :: δ', ?_, ?_, ?_⟩
        · simpa [List.append_assoc] using h1
        · rw [actsEvs_cons]
          simpa [actEvs, List.cons_prefix_cons] using h2
        · rw [h3, countCmds_cons_cmd]; dsimp only; omega
      | false =>
        obtain ⟨e, he⟩ := sendCommand_failStep net t c st hok
        rw [runActs_cons_cmd, he, bindE_errCase]
        refine ⟨[Ev.cmd t c], rfl, ?_, ?_⟩
        · rw [actsEvs_cons]
          simp [actEvs, List.cons_prefix_cons]
        · simp [countCmds_cons_cmd, countCmds_nil]
    | pupgrade =>
      cases hu : net.upgrade with
      | ok u =>
        cases u
        rw [runActs_cons_up, upgrade_okStep net st hu, bindE_okCase]
        obtain ⟨δ', h1, h2, h3⟩ := ih { st with trace := st.trace ++ [Ev.upgraded] }
        refine ⟨Ev.upgraded :: δ', ?_, ?_, ?_⟩
        · simpa [List.append_assoc] using h1
        · rw [actsEvs_cons]
          simpa [actEvs, List.cons_prefix_cons] using h2
        · rw [h3, countCmds_cons_up]
      | error e =>
        rw [runActs_cons_up, upgrade_errStep net st e hu, bindE_errCase]
        exact ⟨[], by simp [countCmds_nil]⟩

/-- A successful run of an action list produces exactly the list's full
event trace and consumes exactly its reply budget. -/
theorem runActs_okShape (net : Network) (l : List PAct) : ∀ st st' : St,
    runActs net l st = (.ok (), st') →
      st'.trace = st.trace ++ actsEvs l ∧ st'.idx = st.idx + actsCost l := by
  induction l with
  | nil =>
    intro st st' h
    rw [runActs_nil] at h
    cases h
    simp [actsEvs_nil, actsCost]
  | cons a rest ih =>
    intro st st' h
    cases a with
    | pcmd t c =>
      cases hok : replyOk net st.idx with
      | true =>
        obtain ⟨v, hv⟩ := sendCommand_okStep net t c st hok
        rw [runActs_cons_cmd, hv, bindE_okCase] at h
        obtain ⟨h1, h2⟩ := ih _ _ h
        constructor
        · rw [h1, actsEvs_cons]; simp [actEvs]
        · rw [h2, actsCost_cons]; simp [actCost]; omega
      | false =>
        obtain ⟨e, he⟩ := sendCommand_failStep net t c st hok
        rw [runActs_cons_cmd, he, bindE_errCase] at h
        cases h
    | pupgrade =>
      cases hu : net.upgrade with
      | ok u =>
        cases u
        rw [runActs_cons_up, upgrade_okStep net st hu, bindE_okCase] at h
        obtain ⟨h1, h2⟩ := ih _ _ h
        constructor
        · rw [h1, actsEvs_cons]; simp [actEvs]
        · rw [h2, actsCost_cons]; simp [actCost]
      | error e =>
        rw [runActs_cons_up, upgrade_errStep net st e hu, bindE_errCase] at h
        cases h

/-- A successful run only ever saw replies that pass classification. -/
theorem runActs_okok (net : Network) (l : List PAct) : ∀ st st' : St,
    runActs net l st = (.ok (), st') →
      ∀ j, st.idx ≤ j → j < st'.idx → replyOk net j = true := by
  induction l with
  | nil =>
    intro st st' h j h1 h2
    rw [runActs_nil] at h
    cases h
    omega
  | cons a rest ih =>
    intro st st' h j h1 h2
    cases a with
    | pcmd t c =>
      cases hok : replyOk net st.idx with
      | true =>
        obtain ⟨v, hv⟩ := sendCommand_okStep net t c st hok
        rw [runActs_cons_cmd, hv, bindE_okCase] at h
        by_cases hj : j = st.idx
        · rw [hj]; exact hok
        · exact ih _ _ h j (by dsimp only; omega) h2
      | false =>
        obtain ⟨e, he⟩ := sendCommand_failStep net t c st hok
        rw [runActs_cons_cmd, he, bindE_errCase] at h
        cases h
    | pupgrade =>
      cases hu : net.upgrade with
      | ok u =>
        cases u
        rw [runActs_cons_up, upgrade_okStep net st hu, bindE_okCase] at h
        exact ih _ _ h j h1 h2
      | error e =>
        rw [runActs_cons_up, upgrade_errStep net st e hu, bindE_errCase] at h
        cases h

/-- A reply whose leading text parses to a code `≥ 400`, if the run gets
far enough to consume it, makes the run abort right there with exactly the
`"SMTP Error ..."` message of `sendCommand`. -/
theorem runActs_err400 (net : Network) (l : List PAct) : ∀ (st : St) r st',
    runActs net l st = (r, st') →
      ∀ j (resp : String) (code : Int), net.replies j = .reply resp →
        jsParseInt (strTake3 resp) = some code → 400 ≤ code →
        st.idx ≤ j → j < st'.idx →
        r = .error ("SMTP Error " ++ toString code ++ ": " ++ jsTrim resp) ∧
          st'.idx = j + 1 := by
  induction l with
  | nil =>
    intro st r st' h j resp code hr hp hc h1 h2
    rw [runActs_nil] at h
    cases h
    omega
  | cons a rest ih =>
    intro st r st' h j resp code hr hp hc h1 h2
    cases a with
    | pcmd t c =>
      by_cases hj : j = st.idx
      · subst hj
        rw [runActs_cons_cmd, sendCommand_err400 net t c st resp code hr hp hc,
          bindE_errCase] at h
        cases h
        exact ⟨rfl, rfl⟩
      · rcases hs : sendCommand net t c st with ⟨r₀, st₁⟩
        have hst₁ : st₁ = ⟨st.trace ++ [Ev.cmd t c], st.idx + 1⟩ := by
          have := sendCommand_snd net t c st
          rw [hs] at this
          exact this
        cases r₀ with
        | error e =>
          rw [runActs_cons_cmd, hs, bindE_errCase] at h
          cases h
          rw [hst₁] at h2
          dsimp only at h2
          omega
        | ok v =>
          rw [runActs_cons_cmd, hs, bindE_okCase] at h
          refine ih st₁ r st' h j resp code hr hp hc ?_ h2
          rw [hst₁]
          dsimp only
          omega
    | pupgrade =>
      cases hu : net.upgrade with
      | ok u =>
        cases u
        rw [runActs_cons_up, upgrade_okStep net st hu, bindE_okCase] at h
        exact ih _ r st' h j resp code hr hp hc h1 h2
      | error e =>
        rw [runActs_cons_up, upgrade_errStep net st e hu, bindE_errCase] at h
        cases h
        omega

/-- If every reply in the budget window passes classification and the TLS
upgrade succeeds whenever the list demands one, the run succeeds. -/
theorem runActs_allOk (net : Network) (l : List PAct) : ∀ st : St,
    (∀ j, st.idx ≤ j → j < st.idx + actsCost l → replyOk net j = true) →
    (.pupgrade ∈ l → net.upgrade = .ok ()) →
    ∃ st', runActs net l st = (.ok (), st') := by
  induction l with
  | nil => intro st _ _; exact ⟨st, rfl⟩
  | cons a rest ih =>
    intro st hrep hup
    cases a with
    | pcmd t c =>
      have hcost : actsCost (.pcmd t c :: rest) = 1 + actsCost rest := by
        rw [actsCost_cons]; rfl
      have hok : replyOk net st.idx = true := hrep st.idx le_rfl (by omega)
      obtain ⟨v, hv⟩ := sendCommand_okStep net t c st hok
      obtain ⟨st', h'⟩ := ih ⟨st.trace ++ [Ev.cmd t c], st.idx + 1⟩
        (by intro j hj1 hj2; dsimp only at hj1 hj2; exact hrep j (by omega) (by omega))
        (fun hm => hup (List.mem_cons_of_mem _ hm))
      exact ⟨st', by rw [runActs_cons_cmd, hv, bindE_okCase]; exact h'⟩
    | pupgrade =>
      have hu : net.upgrade = .ok () := hup (List.mem_cons_self _ _)
      have hcost : actsCost (.pupgrade :: rest) = actsCost rest := by
        rw [actsCost_cons]; simp [actCost]
      obtain ⟨st', h'⟩ := ih { st with trace := st.trace ++ [Ev.upgraded] }
        (by intro j hj1 hj2; dsimp only at hj1 hj2; exact hrep j hj1 (by omega))
        (fun hm => hup (List.mem_cons_of_mem _ hm))
      exact ⟨st', by rw [runActs_cons_up, upgrade_okStep net st hu, bindE_okCase]; exact h'⟩

/-- A successful run that contained an upgrade action had a successful TLS
upgrade available. -/
theorem runActs_okUpgrade (net : Network) (l : List PAct) : ∀ st st' : St,
    runActs net l st = (.ok (), st') → .pupgrade ∈ l → net.upgrade = .ok () := by
  induction l with
  | nil => intro st st' _ hm; cases hm
  | cons a rest ih =>
    intro st st' h hm
    cases a with
    | pcmd t c =>
      rcases hs : sendCommand net t c st with ⟨r₀, st₁⟩
      cases r₀ with
      | error e =>
        rw [runActs_cons_cmd, hs, bindE_errCase] at h
        cases h
      | ok v =>
        rw [runActs_cons_cmd, hs, bindE_okCase] at h
        rcases List.mem_cons.1 hm with hm | hm
        · cases hm
        · exact ih _ _ h hm
    | pupgrade =>
      cases hu : net.upgrade with
      | ok u => cases u; rfl
      | error e =>
        rw [runActs_cons_up, upgrade_errStep net st e hu, bindE_errCase] at h
        cases h

theorem firstInvalid_none (l : List String) :
    firstInvalid l = none ↔ ∀ a ∈ l, validateEmail a = true := by
  induction l with
  | nil => simp [firstInvalid]
  | cons e rest ih =>
    by_cases h : validateEmail e
    · simp [firstInvalid, h, ih]
    · simp [firstInvalid, h]

theorem firstInvalid_some (l : List String) (a : String) :
    firstInvalid l = some a → a ∈ l ∧ validateEmail a = false := by
  induction l with
  | nil => intro h; cases h
  | cons e rest ih =>
    intro h
    by_cases he : validateEmail e
    · rw [firstInvalid, if_pos he] at h
      obtain ⟨h1, h2⟩ := ih h
      exact ⟨List.mem_cons_of_mem _ h1, h2⟩
    · rw [firstInvalid, if_neg he] at h
      cases h
      exact ⟨List.mem_cons_self _ _, by simpa using he⟩

/-- Exhaustive description of one `send` call: address validation failure
(`to` first, then `from`) with an untouched socket, connection failure, or
a dialogue run over the script `sendActs`, successful or aborted. -/
theorem send_cases (cfg : SMTPConfig) (net : Network) (env : GenEnv) (m : EmailMessage) :
    (∃ a, firstInvalid m.«to».toList = some a ∧
      send cfg net env m =
        ({ success := false, error := some ("Invalid email address: " ++ a) }, ⟨[], 0⟩)) ∨
    (firstInvalid m.«to».toList = none ∧ validateEmail m.«from» = false ∧
      send cfg net env m =
        ({ success := false,
           error := some ("Invalid from email address: " ++ m.«from») }, ⟨[], 0⟩)) ∨
    (firstInvalid m.«to».toList = none ∧ validateEmail m.«from» = true ∧
      ((∃ e, net.connect = .error e ∧
         send cfg net env m =
           ({ success := false, error := some e }, ⟨[Ev.connect cfg.secure], 0⟩)) ∨
       (net.connect = .ok () ∧
         ((∃ st', runActs net (sendActs cfg env m) ⟨[Ev.connect cfg.secure], 0⟩ =
             (.ok (), st') ∧
           send cfg net env m =
             ({ success := true, messageId := some env.msgId2 },
              { st' with trace := st'.trace ++ [Ev.destroyed] })) ∨
          (∃ e st', runActs net (sendActs cfg env m) ⟨[Ev.connect cfg.secure], 0⟩ =
             (.error e, st') ∧
           send cfg net env m = ({ success := false, error := some e }, st')))))) := by
  unfold send
  cases hfi : firstInvalid m.«to».toList with
  | some a =>
    refine Or.inl ⟨a, rfl, ?_⟩
    dsimp only
  | none =>
    dsimp only
    by_cases hvf : validateEmail m.«from» = true
    · refine Or.inr (Or.inr ⟨rfl, hvf, ?_⟩)
      rw [if_pos hvf]
      unfold createConnection
      cases hcn : net.connect with
      | error e =>
        refine Or.inl ⟨e, rfl, ?_⟩
        simp [bindE_errCase]
      | ok u =>
        cases u
        refine Or.inr ⟨rfl, ?_⟩
        dsimp only
        rw [bindE_okCase, sendDialogue_eq]
        rcases hrun : runActs net (sendActs cfg env m) ⟨[Ev.connect cfg.secure], 0⟩
          with ⟨r, st'⟩
        cases r with
        | ok v =>
          cases v
          refine Or.inl ⟨st', rfl, ?_⟩
          simp only [List.nil_append, hrun, bindE_okCase]
        | error e =>
          refine Or.inr ⟨e, st', rfl, ?_⟩
          simp only [List.nil_append, hrun, bindE_errCase]
    · refine Or.inr (Or.inl ⟨rfl, by simpa using hvf, ?_⟩)
      rw [if_neg hvf]

/-- Exhaustive description of one `checkConnection` call. -/
theorem checkConnection_cases (cfg : SMTPConfig) (net : Network) :
    (∃ e, net.connect = .error e ∧
      checkConnection cfg net = (false, ⟨[Ev.connect cfg.secure], 0⟩)) ∨
    (net.connect = .ok () ∧
      ((∃ st', runActs net (checkActs cfg) ⟨[Ev.connect cfg.secure], 0⟩ = (.ok (), st') ∧
         checkConnection cfg net =
           (true, { st' with trace := st'.trace ++ [Ev.destroyed] })) ∨
       (∃ e st', runActs net (checkActs cfg) ⟨[Ev.connect cfg.secure], 0⟩ =
          (.error e, st') ∧
         checkConnection cfg net = (false, st')))) := by
  unfold checkConnection createConnection
  cases hcn : net.connect with
  | error e =>
    refine Or.inl ⟨e, rfl, ?_⟩
    simp [bindE_errCase]
  | ok u =>
    cases u
    refine Or.inr ⟨rfl, ?_⟩
    dsimp only
    rw [bindE_okCase, checkDialogue_eq]
    rcases hrun : runActs net (checkActs cfg) ⟨[Ev.connect cfg.secure], 0⟩ with ⟨r, st'⟩
    cases r with
    | ok v =>
      cases v
      refine Or.inl ⟨st', rfl, ?_⟩
      simp only [List.nil_append, hrun, bindE_okCase]
    | error e =>
      refine Or.inr ⟨e, st', rfl, ?_⟩
      simp only [List.nil_append, hrun, bindE_errCase]

/-- C1: if `from` or any element of `to` fails `validateEmail`, `send`
returns `success := false` with the corresponding
`"Invalid [from ]email address: <addr>"` message and an empty trace (no
socket event at all, for every network); and `cc`/`bcc` are not validated
locally: whenever `to` and `from` are valid, `send` reaches the network
dialogue (the connection attempt is in the trace), whatever `cc`/`bcc`
hold. -/
theorem claim_C1 (cfg : SMTPConfig) (net : Network) (env : GenEnv) (m : EmailMessage) :
    ((¬ ∀ a ∈ m.«to».toList, validateEmail a = true) ∨ validateEmail m.«from» = false →
      (send cfg net env m).1.success = false ∧ (send cfg net env m).2.trace = [] ∧
      ((∃ a ∈ m.«to».toList, validateEmail a = false ∧
          (send cfg net env m).1.error = some ("Invalid email address: " ++ a)) ∨
       (validateEmail m.«from» = false ∧
          (send cfg net env m).1.error =
            some ("Invalid from email address: " ++ m.«from»)))) ∧
    ((∀ a ∈ m.«to».toList, validateEmail a = true) → validateEmail m.«from» = true →
      Ev.connect cfg.secure ∈ (send cfg net env m).2.trace) := by
  rcases send_cases cfg net env m with
    ⟨a, hfi, hs⟩ | ⟨hfi, hvf, hs⟩ |
    ⟨hfi, hvf, ⟨e, hcn, hs⟩ | ⟨hcn, ⟨st', hrun, hs⟩ | ⟨e, st', hrun, hs⟩⟩⟩
  · obtain ⟨hmem, hbad⟩ := firstInvalid_some _ _ hfi
    constructor
    · intro _
      rw [hs]
      exact ⟨rfl, rfl, Or.inl ⟨a, hmem, hbad, rfl⟩⟩
    · intro hall _
      exact absurd (hall a hmem) (by simp [hbad])
  · constructor
    · intro _
      rw [hs]
      exact ⟨rfl, rfl, Or.inr ⟨hvf, rfl⟩⟩
    · intro _ hvf'
      rw [hvf] at hvf'
      cases hvf'
  · constructor
    · intro h
      rcases h with h | h
      · exact absurd ((firstInvalid_none _).1 hfi) h
      · rw [hvf] at h; cases h
    · intro _ _
      rw [hs]
      simp
  · constructor
    · intro h
      rcases h with h | h
      · exact absurd ((firstInvalid_none _).1 hfi) h
      · rw [hvf] at h; cases h
    · intro _ _
      obtain ⟨ht, _⟩ := runActs_okShape net (sendActs cfg env m) _ _ hrun
      rw [hs]
      dsimp only
      rw [ht]
      simp
  · constructor
    · intro h
      rcases h with h | h
      · exact absurd ((firstInvalid_none _).1 hfi) h
      · rw [hvf] at h; cases h
    · intro _ _
      obtain ⟨δ, ht, _, _⟩ := runActs_run net (sendActs cfg env m) ⟨[Ev.connect cfg.secure], 0⟩
      rw [hrun] at ht
      rw [hs]
      dsimp only at ht ⊢
      rw [ht]
      simp

theorem isDig_not_ws (c : Char) (h : isDig c = true) : jsWs c = false := by
  simp only [isDig, Bool.and_eq_true, decide_eq_true_eq] at h
  simp only [jsWs, Bool.or_eq_false_iff, decide_eq_false_iff_not, Bool.and_eq_false_iff]
  omega

theorem isDig_ne_plus (c : Char) (h : isDig c = true) : c ≠ '+' := by
  intro hc
  subst hc
  simp [isDig] at h

theorem isDig_ne_minus (c : Char) (h : isDig c = true) : c ≠ '-' := by
  intro hc
  subst hc
  simp [isDig] at h

theorem toString_natCast (n : Nat) : toString ((n : Nat) : Int) = toString n := rfl

theorem leading3_parse (s : String) (n : Nat) (h : leading3 s = some n) :
    jsParseInt (strTake3 s) = some ((n : Nat) : Int) := by
  unfold leading3 at h
  rcases hs : s.toList with _ | ⟨a, _ | ⟨b, _ | ⟨c, t⟩⟩⟩ <;> rw [hs] at h
  · cases h
  · cases h
  · cases h
  · dsimp only at h
    by_cases hd : (isDig a && isDig b && isDig c) = true
    · rw [if_pos hd] at h
      simp only [Bool.and_eq_true] at hd
      obtain ⟨⟨ha, hb⟩, hc⟩ := hd
      cases h
      unfold jsParseInt strTake3
      have htk : s.toList.take 3 = [a, b, c] := by rw [hs]; rfl
      rw [htk]
      have hlist : (String.mk [a, b, c]).toList = [a, b, c] := rfl
      rw [hlist]
      unfold jsParseIntL
      rw [List.dropWhile_cons_of_neg (by simp [isDig_not_ws a ha])]
      split
      · rename_i heq
        exact absurd (List.cons.inj heq).1 (isDig_ne_plus a ha)
      · rename_i heq
        exact absurd (List.cons.inj heq).1 (isDig_ne_minus a ha)
      · unfold digitsVal
        rw [List.takeWhile_cons_of_pos ha, List.takeWhile_cons_of_pos hb,
          List.takeWhile_cons_of_pos hc, List.takeWhile_nil]
        dsimp only
        show some ((decValue [a, b, c] : Nat) : Int) = _
        unfold decValue
        simp only [List.foldl]
        push_cast
        ring_nf
    · rw [if_neg hd] at h
      cases h

theorem claim_C1_witness :
    ((send wCfg587 wNet250 wEnv wMsgBadTo).1.success = false ∧
      (send wCfg587 wNet250 wEnv wMsgBadTo).2.trace = [] ∧
      ((∃ a ∈ wMsgBadTo.«to».toList, validateEmail a = false ∧
          (send wCfg587 wNet250 wEnv wMsgBadTo).1.error =
            some ("Invalid email address: " ++ a)) ∨
       (validateEmail wMsgBadTo.«from» = false ∧
          (send wCfg587 wNet250 wEnv wMsgBadTo).1.error =
            some ("Invalid from email address: " ++ wMsgBadTo.«from»)))) ∧
    Ev.connect wCfg587.secure ∈ (send wCfg587 wNet250 wEnv wMsgBadCc).2.trace :=
  ⟨(claim_C1 wCfg587 wNet250 wEnv wMsgBadTo).1 (Or.inl (by decide)),
   (claim_C1 wCfg587 wNet250 wEnv wMsgBadCc).2 (by decide) (by decide)⟩

theorem replyOk_false_of (net : Network) (i : Nat) (resp : String) (code : Int)
    (hr : net.replies i = .reply resp) (hp : jsParseInt (strTake3 resp) = some code)
    (hc : 400 ≤ code) : replyOk net i = false := by
  unfold replyOk
  rw [hr]
  dsimp only
  rw [hp]
  dsimp only
  simp only [decide_eq_false_iff_not, not_lt]
  exact hc

/-- C2: a reply whose leading three characters are digits forming a code
`≥ 400`, at any dialogue step the call actually reaches (step `i` is
reached exactly when the call consumes more than `i` replies), makes the
whole operation fail: `send` returns `success := false` carrying exactly
`"SMTP Error <code>: <trimmed raw response>"`, `checkConnection` returns
`false`, and no later step runs (exactly `i + 1` replies are consumed). -/
theorem claim_C2 (cfg : SMTPConfig) (net : Network) (env : GenEnv) (m : EmailMessage)
    (i : Nat) (resp : String) (code : Nat)
    (hr : net.replies i = .reply resp) (hl : leading3 resp = some code)
    (hc : 400 ≤ code) :
    (i < (send cfg net env m).2.idx →
      (send cfg net env m).1 =
        { success := false,
          error := some ("SMTP Error " ++ toString code ++ ": " ++ jsTrim resp) } ∧
      (send cfg net env m).2.idx = i + 1) ∧
    (i < (checkConnection cfg net).2.idx →
      (checkConnection cfg net).1 = false ∧
      (checkConnection cfg net).2.idx = i + 1) := by
  have hp := leading3_parse resp code hl
  have hci : (400 : Int) ≤ ((code : Nat) : Int) := by exact_mod_cast hc
  have hro : replyOk net i = false := replyOk_false_of net i resp _ hr hp hci
  have hmsg : ("SMTP Error " ++ toString ((code : Nat) : Int) ++ ": " ++ jsTrim resp) =
      ("SMTP Error " ++ toString code ++ ": " ++ jsTrim resp) := by
    rw [toString_natCast]
  constructor
  · intro hidx
    rcases send_cases cfg net env m with
      ⟨a, hfi, hs⟩ | ⟨hfi, hvf, hs⟩ |
      ⟨hfi, hvf, ⟨e, hcn, hs⟩ | ⟨hcn, ⟨st', hrun, hs⟩ | ⟨e, st', hrun, hs⟩⟩⟩
    · rw [hs] at hidx; dsimp only at hidx; omega
    · rw [hs] at hidx; dsimp only at hidx; omega
    · rw [hs] at hidx; dsimp only at hidx; omega
    · rw [hs] at hidx
      dsimp only at hidx
      have := runActs_okok net (sendActs cfg env m) _ _ hrun i (by dsimp only; omega) hidx
      rw [hro] at this
      cases this
    · rw [hs] at hidx
      dsimp only at hidx
      obtain ⟨heq, hix⟩ := runActs_err400 net (sendActs cfg env m) _ _ _ hrun i resp
        ((code : Nat) : Int) hr hp hci (by dsimp only; omega) hidx
      rw [hs]
      dsimp only
      rw [hix]
      refine ⟨?_, rfl⟩
      have he : e = "SMTP Error " ++ toString ((code : Nat) : Int) ++ ": " ++ jsTrim resp :=
        Except.error.inj heq
      rw [he, hmsg]
  · intro hidx
    rcases checkConnection_cases cfg net with
      ⟨e, hcn, hs⟩ | ⟨hcn, ⟨st', hrun, hs⟩ | ⟨e, st', hrun, hs⟩⟩
    · rw [hs] at hidx; dsimp only at hidx; omega
    · rw [hs] at hidx
      dsimp only at hidx
      have := runActs_okok net (checkActs cfg) _ _ hrun i (by dsimp only; omega) hidx
      rw [hro] at this
      cases this
    · rw [hs] at hidx
      dsimp only at hidx
      obtain ⟨heq, hix⟩ := runActs_err400 net (checkActs cfg) _ _ _ hrun i resp
        ((code : Nat) : Int) hr hp hci (by dsimp only; omega) hidx
      rw [hs]
      dsimp only
      exact ⟨rfl, hix⟩

theorem claim_C2_witness :
    ((send wCfgTLS wNet550 wEnv wMsg).1 =
        { success := false,
          error := some ("SMTP Error " ++ toString 550 ++ ": " ++
            jsTrim "550 mailbox unavailable\r\n") } ∧
      (send wCfgTLS wNet550 wEnv wMsg).2.idx = 0 + 1) ∧
    ((checkConnection wCfgTLS wNet550).1 = false ∧
      (checkConnection wCfgTLS wNet550).2.idx = 0 + 1) :=
  ⟨(claim_C2 wCfgTLS wNet550 wEnv wMsg 0 "550 mailbox unavailable\r\n" 550 rfl
      (by decide) (by decide)).1 (by decide),
   (claim_C2 wCfgTLS wNet550 wEnv wMsg 0 "550 mailbox unavailable\r\n" 550 rfl
      (by decide) (by decide)).2 (by decide)⟩

theorem decValue_foldl_lt (ds : List Char) : ∀ acc : Nat,
    (∀ c ∈ ds, isDig c = true) →
    List.foldl (fun a c => a * 10 + digitVal c) acc ds < (acc + 1) * 10 ^ ds.length := by
  induction ds with
  | nil => intro acc _; simp
  | cons d ds ih =>
    intro acc hall
    have hd : isDig d = true := hall d (List.mem_cons_self _ _)
    have hv : digitVal d ≤ 9 := by
      simp only [isDig, Bool.and_eq_true, decide_eq_true_eq] at hd
      simp only [digitVal]
      omega
    have h1 := ih (acc * 10 + digitVal d) (fun c hc => hall c (List.mem_cons_of_mem _ hc))
    calc List.foldl (fun a c => a * 10 + digitVal c) acc (d :: ds)
        = List.foldl (fun a c => a * 10 + digitVal c) (acc * 10 + digitVal d) ds := rfl
      _ < (acc * 10 + digitVal d + 1) * 10 ^ ds.length := h1
      _ ≤ ((acc + 1) * 10) * 10 ^ ds.length := by
          have : acc * 10 + digitVal d + 1 ≤ (acc + 1) * 10 := by omega
          exact Nat.mul_le_mul_right _ this
      _ = (acc + 1) * 10 ^ (d :: ds).length := by
          rw [List.length_cons, pow_succ]
          ring

theorem decValue_lt (ds : List Char) (h : ∀ c ∈ ds, isDig c = true) :
    decValue ds < 10 ^ ds.length := by
  simpa using decValue_foldl_lt ds 0 h

theorem length_dropWhile_le (p : Char → Bool) (l : List Char) :
    (l.dropWhile p).length ≤ l.length := by
  induction l with
  | nil => simp [List.dropWhile]
  | cons a t ih =>
    by_cases h : p a
    · rw [List.dropWhile_cons_of_pos h, List.length_cons]
      omega
    · rw [List.dropWhile_cons_of_neg h]

theorem length_takeWhile_le (p : Char → Bool) (l : List Char) :
    (l.takeWhile p).length ≤ l.length := by
  induction l with
  | nil => simp [List.takeWhile_nil]
  | cons a t ih =>
    by_cases h : p a
    · rw [List.takeWhile_cons_of_pos h, List.length_cons, List.length_cons]
      omega
    · rw [List.takeWhile_cons_of_neg h]
      simp

theorem digitsVal_lt (cs : List Char) (h2 : cs.length ≤ 2) (v : Nat)
    (hv : digitsVal cs = some v) : v < 100 := by
  unfold digitsVal at hv
  cases htw : List.takeWhile isDig cs with
  | nil => rw [htw] at hv; cases hv
  | cons d ds' =>
    rw [htw] at hv
    dsimp only at hv
    have hveq : v = decValue (d :: ds') := (Option.some.inj hv).symm
    have hall : ∀ c ∈ d :: ds', isDig c = true := by
      intro c hc
      rw [← htw] at hc
      exact List.mem_takeWhile_imp hc
    have hlen : (d :: ds').length ≤ 2 := by
      rw [← htw]
      exact le_trans (length_takeWhile_le _ _) h2
    have hval := decValue_lt (d :: ds') hall
    have hpow : 10 ^ (d :: ds').length ≤ 100 := by
      calc 10 ^ (d :: ds').length ≤ 10 ^ 2 := Nat.pow_le_pow_right (by omega) hlen
        _ = 100 := by norm_num
    omega

theorem map_cast_some (o : Option Nat) (v : Int)
    (h : o.map (fun n => (n : Int)) = some v) : ∃ n, o = some n ∧ v = (n : Int) := by
  cases o with
  | none => cases h
  | some n => exact ⟨n, rfl, (Option.some.inj h).symm⟩

theorem map_negCast_some (o : Option Nat) (v : Int)
    (h : o.map (fun n => -(n : Int)) = some v) : ∃ n, o = some n ∧ v = -(n : Int) := by
  cases o with
  | none => cases h
  | some n => exact ⟨n, rfl, (Option.some.inj h).symm⟩

theorem jsParseIntL_short (cs : List Char) (h : cs.length ≤ 2) (v : Int)
    (hp : jsParseIntL cs = some v) : v < 400 := by
  unfold jsParseIntL at hp
  have hd : (cs.dropWhile jsWs).length ≤ 2 :=
    le_trans (length_dropWhile_le _ _) h
  split at hp
  · rename_i rest heq
    obtain ⟨n, hn, hv⟩ := map_cast_some _ _ hp
    have : n < 100 := digitsVal_lt rest (by rw [heq] at hd; simp at hd; omega) n hn
    omega
  · rename_i rest heq
    obtain ⟨n, hn, hv⟩ := map_negCast_some _ _ hp
    omega
  · obtain ⟨n, hn, hv⟩ := map_cast_some _ _ hp
    have : n < 100 := digitsVal_lt _ hd n hn
    omega

theorem jsParseInt_nonDigitHead (s : String)
    (h : ∀ d, s.toList.head? = some d → isDig d = false) :
    ∀ v : Int, jsParseInt (strTake3 s) = some v → v < 400 := by
  intro v hp
  unfold jsParseInt strTake3 at hp
  have hlist : (String.mk (s.toList.take 3)).toList = s.toList.take 3 := rfl
  rw [hlist] at hp
  cases hs : s.toList with
  | nil =>
    rw [hs] at hp
    cases hp
  | cons a t =>
    rw [hs] at hp
    have ha : isDig a = false := h a (by rw [hs]; rfl)
    rw [List.take_succ_cons] at hp
    cases hw : jsWs a with
    | true =>
      unfold jsParseIntL at hp
      rw [List.dropWhile_cons_of_pos hw] at hp
      have hp' : jsParseIntL (t.take 2) = some v := hp
      exact jsParseIntL_short (t.take 2) (List.length_take_le _ _) v hp'
    | false =>
      unfold jsParseIntL at hp
      rw [List.dropWhile_cons_of_neg (by simp [hw])] at hp
      split at hp
      · rename_i rest heq
        obtain ⟨ha', hrest⟩ := List.cons.inj heq
        obtain ⟨n, hn, hv⟩ := map_cast_some _ _ hp
        have : n < 100 := digitsVal_lt rest
          (by rw [← hrest]; exact List.length_take_le _ _) n hn
        omega
      · rename_i rest heq
        obtain ⟨n, hn, hv⟩ := map_negCast_some _ _ hp
        omega
      · unfold digitsVal at hp
        rw [List.takeWhile_cons_of_neg (by simp [ha])] at hp
        cases hp

/-- C10: given a complete reply, `sendCommand` classifies it solely by
`parseInt` of its first three characters: a parsed value `≥ 400` rejects
with the `"SMTP Error ..."` message, a parsed value `< 400` or an
unparsable prefix (NaN) resolves with the trimmed reply; in particular a
reply that does not begin with a decimal digit can never fail the step,
because at most two digits fit after a skipped/sign character, bounding
any parsed value below 400. -/
theorem claim_C10 (net : Network) (tag : Tag) (c : String) (st : St) (resp : String)
    (hr : net.replies st.idx = .reply resp) :
    (∀ code : Int, jsParseInt (strTake3 resp) = some code → 400 ≤ code →
      sendCommand net tag c st =
        (.error ("SMTP Error " ++ toString code ++ ": " ++ jsTrim resp),
         ⟨st.trace ++ [Ev.cmd tag c], st.idx + 1⟩)) ∧
    (∀ code : Int, jsParseInt (strTake3 resp) = some code → code < 400 →
      sendCommand net tag c st =
        (.ok (jsTrim resp), ⟨st.trace ++ [Ev.cmd tag c], st.idx + 1⟩)) ∧
    (jsParseInt (strTake3 resp) = none →
      sendCommand net tag c st =
        (.ok (jsTrim resp), ⟨st.trace ++ [Ev.cmd tag c], st.idx + 1⟩)) ∧
    ((∀ d, resp.toList.head? = some d → isDig d = false) →
      sendCommand net tag c st =
        (.ok (jsTrim resp), ⟨st.trace ++ [Ev.cmd tag c], st.idx + 1⟩)) := by
  have hok : ∀ code : Int, jsParseInt (strTake3 resp) = some code → code < 400 →
      sendCommand net tag c st =
        (.ok (jsTrim resp), ⟨st.trace ++ [Ev.cmd tag c], st.idx + 1⟩) := by
    intro code hp hlt
    unfold sendCommand
    rw [hr]
    dsimp only
    rw [hp]
    dsimp only
    rw [if_neg (by omega)]
  have hnan : jsParseInt (strTake3 resp) = none →
      sendCommand net tag c st =
        (.ok (jsTrim resp), ⟨st.trace ++ [Ev.cmd tag c], st.idx + 1⟩) := by
    intro hp
    unfold sendCommand
    rw [hr]
    dsimp only
    rw [hp]
  refine ⟨fun code hp hc => sendCommand_err400 net tag c st resp code hr hp hc,
    hok, hnan, ?_⟩
  intro hhead
  cases hp : jsParseInt (strTake3 resp) with
  | none => exact hnan hp
  | some code => exact hok code hp (jsParseInt_nonDigitHead resp hhead code hp)

theorem claim_C10_witness :
    sendCommand wNetWeird .ehlo "EHLO localhost" ⟨[], 0⟩ =
      (.ok (jsTrim "-22 crazy\r\n"), ⟨[Ev.cmd .ehlo "EHLO localhost"], 0 + 1⟩) :=
  (claim_C10 wNetWeird .ehlo "EHLO localhost" ⟨[], 0⟩ "-22 crazy\r\n" rfl).2.2.2
    (by decide)

theorem splitAtAt_some_imp (cs : List Char) : ∀ l d,
    splitAtAt cs = some (l, d) → cs = l ++ '@' :: d ∧ '@' ∉ l := by
  induction cs with
  | nil => intro l d h; cases h
  | cons c cs ih =>
    intro l d h
    unfold splitAtAt at h
    by_cases hc : c = '@'
    · rw [if_pos hc] at h
      obtain ⟨h1, h2⟩ := Prod.mk.inj (Option.some.inj h)
      subst h1; subst h2; subst hc
      exact ⟨rfl, List.not_mem_nil _⟩
    · rw [if_neg hc] at h
      cases hsp : splitAtAt cs with
      | none => rw [hsp] at h; cases h
      | some p =>
        rcases p with ⟨l', d'⟩
        rw [hsp] at h
        dsimp only at h
        obtain ⟨h1, h2⟩ := Prod.mk.inj (Option.some.inj h)
        subst h2
        obtain ⟨hcs, hnm⟩ := ih l' d' hsp
        subst hcs
        rw [← h1]
        refine ⟨rfl, ?_⟩
        intro hm
        rcases List.mem_cons.1 hm with hm | hm
        · exact hc hm.symm
        · exact hnm hm

theorem splitAtAt_of (l d : List Char) (hl : '@' ∉ l) :
    splitAtAt (l ++ '@' :: d) = some (l, d) := by
  induction l with
  | nil => simp [splitAtAt]
  | cons c l ih =>
    have hc : c ≠ '@' := fun h => hl (h ▸ List.mem_cons_self _ _)
    rw [List.cons_append]
    unfold splitAtAt
    rw [if_neg hc, ih (fun hm => hl (List.mem_cons_of_mem _ hm))]

theorem dropLast_append_ne_nil (l₁ l₂ : List Char) (h : l₂ ≠ []) :
    (l₁ ++ l₂).dropLast = l₁ ++ l₂.dropLast := by
  rcases l₂ with _ | ⟨b, u⟩
  · exact absurd rfl h
  · exact List.dropLast_append_cons

theorem hasInnerDot_iff (d : List Char) :
    hasInnerDot d = true ↔ ∃ X Y, d = X ++ '.' :: Y ∧ X ≠ [] ∧ Y ≠ [] := by
  constructor
  · intro h
    cases d with
    | nil => cases h
    | cons a rest =>
      unfold hasInnerDot at h
      have hmem : '.' ∈ rest.dropLast := by
        simpa [List.elem_iff] using h
      obtain ⟨s, t, hst⟩ := List.append_of_mem hmem
      have hrne : rest ≠ [] := by
        intro h0
        rw [h0] at hst
        exact absurd (List.append_eq_nil.1 hst.symm).2 (by simp)
      have hlast := List.dropLast_append_getLast hrne
      refine ⟨a :: s, t ++ [rest.getLast hrne], ?_, by simp, by simp⟩
      conv_lhs => rw [← hlast, hst]
      simp [List.cons_append, List.append_assoc]
  · rintro ⟨X, Y, hd, hX, hY⟩
    rcases X with _ | ⟨x, X'⟩
    · exact absurd rfl hX
    rcases Y with _ | ⟨y, Y'⟩
    · exact absurd rfl hY
    subst hd
    rw [List.cons_append]
    unfold hasInnerDot
    dsimp only
    rw [dropLast_append_ne_nil X' ('.' :: y :: Y') (by simp)]
    simp [List.elem_iff]

/-- Declarative reading of the validation regex: the string decomposes as
`local ++ "@" ++ X ++ "." ++ Y` with `local`, `X`, `Y` nonempty and every
character outside the whitespace/`@` classes. -/
theorem validL_iff (cs : List Char) :
    validL cs = true ↔ ∃ l X Y : List Char,
      cs = l ++ '@' :: (X ++ '.' :: Y) ∧ l ≠ [] ∧ X ≠ [] ∧ Y ≠ [] ∧
      (∀ c ∈ l, okChar c = true) ∧ (∀ c ∈ X, okChar c = true) ∧
      (∀ c ∈ Y, okChar c = true) := by
  constructor
  · intro h
    unfold validL at h
    cases hsp : splitAtAt cs with
    | none => rw [hsp] at h; cases h
    | some p =>
      rcases p with ⟨l, d⟩
      rw [hsp] at h
      dsimp only at h
      simp only [Bool.and_eq_true, Bool.not_eq_true', List.all_eq_true] at h
      obtain ⟨⟨⟨hne, hlok⟩, hdok⟩, hdot⟩ := h
      obtain ⟨hcs, _⟩ := splitAtAt_some_imp cs l d hsp
      obtain ⟨X, Y, hdXY, hX, hY⟩ := (hasInnerDot_iff d).1 hdot
      subst hdXY
      refine ⟨l, X, Y, by rw [hcs], ?_, hX, hY, hlok, ?_, ?_⟩
      · intro h0; rw [h0] at hne; cases hne
      · intro c hc; exact hdok c (List.mem_append_left _ hc)
      · intro c hc
        exact hdok c (List.mem_append_right _ (List.mem_cons_of_mem _ hc))
  · rintro ⟨l, X, Y, hcs, hl, hX, hY, hlok, hXok, hYok⟩
    have hnomem : '@' ∉ l := by
      intro hm
      have := hlok '@' hm
      simp [okChar] at this
    subst hcs
    unfold validL
    rw [splitAtAt_of l (X ++ '.' :: Y) hnomem]
    dsimp only
    simp only [Bool.and_eq_true, Bool.not_eq_true', List.all_eq_true]
    refine ⟨⟨⟨by simpa using hl, hlok⟩, ?_⟩, (hasInnerDot_iff _).2 ⟨X, Y, rfl, hX, hY⟩⟩
    intro c hc
    rcases List.mem_append.1 hc with hc | hc
    · exact hXok c hc
    · rcases List.mem_cons.1 hc with hc | hc
      · subst hc; decide
      · exact hYok c hc

/-- C3 (corrected): `validateEmail` is the total boolean test accepting
exactly the strings of the form `local ++ "@" ++ X ++ "." ++ Y` where
`local`, `X`, `Y` are nonempty and free of whitespace and `'@'` (so the
domain needs a dot with at least one such character on each side); it
accepts and rejects the spec's examples as listed. -/
theorem claim_C3 :
    (∀ email : String, validateEmail email = true ↔ ∃ l X Y : List Char,
      email.toList = l ++ '@' :: (X ++ '.' :: Y) ∧ l ≠ [] ∧ X ≠ [] ∧ Y ≠ [] ∧
      (∀ c ∈ l, okChar c = true) ∧ (∀ c ∈ X, okChar c = true) ∧
      (∀ c ∈ Y, okChar c = true)) ∧
    validateEmail "user@domain.com" = true ∧
    validateEmail "user.name+tag@domain.co.uk" = true ∧
    validateEmail "invalid" = false ∧
    validateEmail "@domain.com" = false ∧
    validateEmail "user@" = false ∧
    validateEmail "" = false :=
  ⟨fun email => validL_iff email.toList,
   by decide, by decide, by decide, by decide, by decide, by decide⟩

theorem claim_C3_witness :
    ∃ l X Y : List Char,
      "user@domain.com".toList = l ++ '@' :: (X ++ '.' :: Y) ∧ l ≠ [] ∧ X ≠ [] ∧
      Y ≠ [] ∧ (∀ c ∈ l, okChar c = true) ∧ (∀ c ∈ X, okChar c = true) ∧
      (∀ c ∈ Y, okChar c = true) :=
  (claim_C3.1 "user@domain.com").mp (by decide)

/-- C3 counterexample: the claim's criterion — nonempty whitespace-free
local part, then `@`, then a nonempty whitespace-free domain part
containing a dot — is met by the string `"a@b."` with local part `"a"`
and domain part `"b."`, yet `validateEmail` rejects it: the regex demands
a character after the final dot of the domain. -/
theorem claim_C3_counterexample :
    validateEmail "a@b." = false ∧
    "a@b." = "a" ++ "@" ++ "b." ∧
    "a" ≠ "" ∧ noWsStr "a" = true ∧
    "b." ≠ "" ∧ noWsStr "b." = true ∧ '.' ∈ "b.".toList := by
  decide

theorem evTag_of_actsEvs (t : Tag) (l : List PAct) :
    ∀ e ∈ actsEvs l, evIsTag t e = true → ∃ a ∈ l, actIsTag t a = true := by
  induction l with
  | nil => intro e he; cases he
  | cons a rest ih =>
    intro e he ht
    rw [actsEvs_cons] at he
    rcases List.mem_append.1 he with he | he
    · cases a with
      | pcmd t' c =>
        simp only [actEvs, List.mem_singleton] at he
        subst he
        exact ⟨.pcmd t' c, List.mem_cons_self _ _, ht⟩
      | pupgrade =>
        simp only [actEvs, List.mem_singleton] at he
        subst he
        cases ht
    · obtain ⟨a', ha', ht'⟩ := ih e he ht
      exact ⟨a', List.mem_cons_of_mem _ ha', ht'⟩

theorem sendActs_split_tls (cfg : SMTPConfig) (env : GenEnv) (m : EmailMessage)
    (h : needUpgrade cfg = true) :
    sendActs cfg env m =
      .pcmd .ehlo "EHLO localhost" :: .pcmd .starttls "STARTTLS" :: .pupgrade ::
      .pcmd .ehlo "EHLO localhost" :: sendTail cfg env m := by
  simp [sendActs, starttlsActs, h, sendTail, List.append_assoc]

theorem sendActs_split_plain (cfg : SMTPConfig) (env : GenEnv) (m : EmailMessage)
    (h : needUpgrade cfg = false) :
    sendActs cfg env m = .pcmd .ehlo "EHLO localhost" :: sendTail cfg env m := by
  simp [sendActs, starttlsActs, h, sendTail, List.append_assoc]

theorem checkActs_split_tls (cfg : SMTPConfig) (h : needUpgrade cfg = true) :
    checkActs cfg =
      .pcmd .ehlo "EHLO localhost" :: .pcmd .starttls "STARTTLS" :: .pupgrade ::
      .pcmd .ehlo "EHLO localhost" :: checkTail cfg := by
  simp [checkActs, starttlsActs, h, checkTail, List.append_assoc]

theorem checkActs_split_plain (cfg : SMTPConfig) (h : needUpgrade cfg = false) :
    checkActs cfg = .pcmd .ehlo "EHLO localhost" :: checkTail cfg := by
  simp [checkActs, starttlsActs, h, checkTail, List.append_assoc]

theorem authActs_tags (cfg : SMTPConfig) : ∀ a ∈ authActs cfg,
    actIsTag .starttls a = false ∧ actIsTag .ehlo a = false := by
  intro a ha
  unfold authActs at ha
  cases hau : cfg.auth with
  | none => rw [hau] at ha; cases ha
  | some au =>
    rw [hau] at ha
    dsimp only at ha
    rcases List.mem_cons.1 ha with ha | ha
    · subst ha; exact ⟨rfl, rfl⟩
    rcases List.mem_cons.1 ha with ha | ha
    · subst ha; exact ⟨rfl, rfl⟩
    rcases List.mem_cons.1 ha with ha | ha
    · subst ha; exact ⟨rfl, rfl⟩
    · cases ha

theorem rcptActs_tags (l : List String) : ∀ a ∈ rcptActs l,
    actIsTag .starttls a = false ∧ actIsTag .ehlo a = false := by
  intro a ha
  obtain ⟨e, _, hae⟩ := List.mem_map.1 ha
  subst hae
  exact ⟨rfl, rfl⟩

theorem sendTail_tags (cfg : SMTPConfig) (env : GenEnv) (m : EmailMessage) :
    ∀ a ∈ sendTail cfg env m,
      actIsTag .starttls a = false ∧ actIsTag .ehlo a = false := by
  intro a ha
  unfold sendTail at ha
  simp only [List.append_assoc, List.mem_append] at ha
  rcases ha with ha | ha | ha | ha | ha | ha
  · exact authActs_tags cfg a ha
  · rcases List.mem_singleton.1 ha with rfl
    exact ⟨rfl, rfl⟩
  · exact rcptActs_tags _ a ha
  · rcases hcc : truthyF m.cc with _ | _
    · rw [hcc] at ha; cases ha
    · rw [hcc] at ha; exact rcptActs_tags _ a ha
  · rcases hb : truthyF m.bcc with _ | _
    · rw [hb] at ha; cases ha
    · rw [hb] at ha; exact rcptActs_tags _ a ha
  · rcases List.mem_cons.1 ha with rfl | ha
    · exact ⟨rfl, rfl⟩
    rcases List.mem_cons.1 ha with rfl | ha
    · exact ⟨rfl, rfl⟩
    rcases List.mem_cons.1 ha with rfl | ha
    · exact ⟨rfl, rfl⟩
    · cases ha

theorem checkTail_tags (cfg : SMTPConfig) : ∀ a ∈ checkTail cfg,
    actIsTag .starttls a = false ∧ actIsTag .ehlo a = false := by
  intro a ha
  unfold checkTail at ha
  rcases List.mem_append.1 ha with ha | ha
  · exact authActs_tags cfg a ha
  · rcases List.mem_singleton.1 ha with rfl
    exact ⟨rfl, rfl⟩

theorem needUpgrade_false_iff (cfg : SMTPConfig) :
    needUpgrade cfg = false ↔ cfg.secure = true ∨ cfg.port = 465 := by
  unfold needUpgrade
  cases cfg.secure <;> simp

theorem sendActs_no_starttls (cfg : SMTPConfig) (env : GenEnv) (m : EmailMessage)
    (h : needUpgrade cfg = false) :
    ∀ a ∈ sendActs cfg env m, actIsTag .starttls a = false := by
  rw [sendActs_split_plain cfg env m h]
  intro a ha
  rcases List.mem_cons.1 ha with rfl | ha
  · rfl
  · exact (sendTail_tags cfg env m a ha).1

theorem checkActs_no_starttls (cfg : SMTPConfig) (h : needUpgrade cfg = false) :
    ∀ a ∈ checkActs cfg, actIsTag .starttls a = false := by
  rw [checkActs_split_plain cfg h]
  intro a ha
  rcases List.mem_cons.1 ha with rfl | ha
  · rfl
  · exact (checkTail_tags cfg a ha).1

theorem no_tag_of_acts (t : Tag) (l : List PAct)
    (hl : ∀ a ∈ l, actIsTag t a = false) :
    ∀ e ∈ actsEvs l, evIsTag t e = false := by
  intro e he
  by_contra hcon
  rw [Bool.not_eq_false] at hcon
  obtain ⟨a, ha, hta⟩ := evTag_of_actsEvs t l e he hcon
  rw [hl a ha] at hta
  cases hta

/-- C4: a STARTTLS step happens exactly when `secure` is false and the
port is not 465. When `secure` is true or the port is 465 no run of
`send` or `checkConnection` ever writes a STARTTLS command (the `secure`
case connects with TLS from the first byte, recorded in the connection
event); otherwise every successful run writes exactly one STARTTLS,
upgrades the same socket in place, re-sends `EHLO localhost` once, and
only then continues (every later event, AUTH and MAIL FROM included, is
in the remainder, which contains no STARTTLS and no EHLO). -/
theorem claim_C4 (cfg : SMTPConfig) (net : Network) (env : GenEnv) (m : EmailMessage) :
    ((cfg.secure = true ∨ cfg.port = 465) →
      (∀ e ∈ (send cfg net env m).2.trace, evIsTag .starttls e = false) ∧
      (∀ e ∈ (checkConnection cfg net).2.trace, evIsTag .starttls e = false)) ∧
    (cfg.secure = false → cfg.port ≠ 465 →
      ((send cfg net env m).1.success = true →
        ∃ rest, (send cfg net env m).2.trace =
          Ev.connect false :: Ev.cmd .ehlo "EHLO localhost" ::
          Ev.cmd .starttls "STARTTLS" :: Ev.upgraded ::
          Ev.cmd .ehlo "EHLO localhost" :: rest ∧
          ∀ e ∈ rest, evIsTag .starttls e = false ∧ evIsTag .ehlo e = false) ∧
      ((checkConnection cfg net).1 = true →
        ∃ rest, (checkConnection cfg net).2.trace =
          Ev.connect false :: Ev.cmd .ehlo "EHLO localhost" ::
          Ev.cmd .starttls "STARTTLS" :: Ev.upgraded ::
          Ev.cmd .ehlo "EHLO localhost" :: rest ∧
          ∀ e ∈ rest, evIsTag .starttls e = false ∧ evIsTag .ehlo e = false)) ∧
    (cfg.secure = true →
      (send cfg net env m).2.trace = [] ∨
      ∃ δ, (send cfg net env m).2.trace = Ev.connect true :: δ) := by
  refine ⟨?_, ?_, ?_⟩
  · intro hsec
    have hnu : needUpgrade cfg = false := (needUpgrade_false_iff cfg).2 hsec
    constructor
    · rcases send_cases cfg net env m with
        ⟨a, hfi, hs⟩ | ⟨hfi, hvf, hs⟩ |
        ⟨hfi, hvf, ⟨e, hcn, hs⟩ | ⟨hcn, ⟨st', hrun, hs⟩ | ⟨e, st', hrun, hs⟩⟩⟩
      · rw [hs]; intro e he; cases he
      · rw [hs]; intro e he; cases he
      · rw [hs]
        intro e he
        rcases List.mem_singleton.1 he with rfl
        rfl
      · obtain ⟨ht, _⟩ := runActs_okShape net (sendActs cfg env m) _ _ hrun
        rw [hs]
        dsimp only
        rw [ht]
        intro e he
        simp only [List.cons_append, List.nil_append, List.mem_cons, List.mem_append,
          List.mem_singleton] at he
        rcases he with rfl | he | rfl | he
        · rfl
        · exact no_tag_of_acts .starttls _ (sendActs_no_starttls cfg env m hnu) e he
        · rfl
        · cases he
      · obtain ⟨δ, ht, hpre, _⟩ := runActs_run net (sendActs cfg env m)
          ⟨[Ev.connect cfg.secure], 0⟩
        rw [hrun] at ht
        rw [hs]
        dsimp only at ht ⊢
        rw [ht]
        intro e he
        simp only [List.cons_append, List.nil_append, List.mem_cons] at he
        rcases he with rfl | he
        · rfl
        · exact no_tag_of_acts .starttls _ (sendActs_no_starttls cfg env m hnu) e
            (hpre.subset he)
    · rcases checkConnection_cases cfg net with
        ⟨e, hcn, hs⟩ | ⟨hcn, ⟨st', hrun, hs⟩ | ⟨e, st', hrun, hs⟩⟩
      · rw [hs]
        intro e he
        rcases List.mem_singleton.1 he with rfl
        rfl
      · obtain ⟨ht, _⟩ := runActs_okShape net (checkActs cfg) _ _ hrun
        rw [hs]
        dsimp only
        rw [ht]
        intro e he
        simp only [List.cons_append, List.nil_append, List.mem_cons, List.mem_append,
          List.mem_singleton] at he
        rcases he with rfl | he | rfl | he
        · rfl
        · exact no_tag_of_acts .starttls _ (checkActs_no_starttls cfg hnu) e he
        · rfl
        · cases he
      · obtain ⟨δ, ht, hpre, _⟩ := runActs_run net (checkActs cfg)
          ⟨[Ev.connect cfg.secure], 0⟩
        rw [hrun] at ht
        rw [hs]
        dsimp only at ht ⊢
        rw [ht]
        intro e he
        simp only [List.cons_append, List.nil_append, List.mem_cons] at he
        rcases he with rfl | he
        · rfl
        · exact no_tag_of_acts .starttls _ (checkActs_no_starttls cfg hnu) e
            (hpre.subset he)
  · intro hsec hport
    have hnu : needUpgrade cfg = true := by
      unfold needUpgrade
      simp [hsec, hport]
    constructor
    · intro hsucc
      rcases send_cases cfg net env m with
        ⟨a, hfi, hs⟩ | ⟨hfi, hvf, hs⟩ |
        ⟨hfi, hvf, ⟨e, hcn, hs⟩ | ⟨hcn, ⟨st', hrun, hs⟩ | ⟨e, st', hrun, hs⟩⟩⟩
      · rw [hs] at hsucc; cases hsucc
      · rw [hs] at hsucc; cases hsucc
      · rw [hs] at hsucc; cases hsucc
      · obtain ⟨ht, _⟩ := runActs_okShape net (sendActs cfg env m) _ _ hrun
        rw [sendActs_split_tls cfg env m hnu] at ht
        rw [actsEvs_cons, actsEvs_cons, actsEvs_cons, actsEvs_cons] at ht
        rw [hs]
        dsimp only
        rw [ht, hsec]
        refine ⟨actsEvs (sendTail cfg env m) ++ [Ev.destroyed], by
          simp [actEvs, List.append_assoc], ?_⟩
        intro e he
        rcases List.mem_append.1 he with he | he
        · exact ⟨no_tag_of_acts .starttls _ (fun a ha => (sendTail_tags cfg env m a ha).1) e he,
            no_tag_of_acts .ehlo _ (fun a ha => (sendTail_tags cfg env m a ha).2) e he⟩
        · rcases List.mem_singleton.1 he with rfl
          exact ⟨rfl, rfl⟩
      · rw [hs] at hsucc; cases hsucc
    · intro hsucc
      rcases checkConnection_cases cfg net with
        ⟨e, hcn, hs⟩ | ⟨hcn, ⟨st', hrun, hs⟩ | ⟨e, st', hrun, hs⟩⟩
      · rw [hs] at hsucc; cases hsucc
      · obtain ⟨ht, _⟩ := runActs_okShape net (checkActs cfg) _ _ hrun
        rw [checkActs_split_tls cfg hnu] at ht
        rw [actsEvs_cons, actsEvs_cons, actsEvs_cons, actsEvs_cons] at ht
        rw [hs]
        dsimp only
        rw [ht, hsec]
        refine ⟨actsEvs (checkTail cfg) ++ [Ev.destroyed], by
          simp [actEvs, List.append_assoc], ?_⟩
        intro e he
        rcases List.mem_append.1 he with he | he
        · exact ⟨no_tag_of_acts .starttls _ (fun a ha => (checkTail_tags cfg a ha).1) e he,
            no_tag_of_acts .ehlo _ (fun a ha => (checkTail_tags cfg a ha).2) e he⟩
        · rcases List.mem_singleton.1 he with rfl
          exact ⟨rfl, rfl⟩
      · rw [hs] at hsucc; cases hsucc
  · intro hsec
    rcases send_cases cfg net env m with
      ⟨a, hfi, hs⟩ | ⟨hfi, hvf, hs⟩ |
      ⟨hfi, hvf, ⟨e, hcn, hs⟩ | ⟨hcn, ⟨st', hrun, hs⟩ | ⟨e, st', hrun, hs⟩⟩⟩
    · rw [hs]; exact Or.inl rfl
    · rw [hs]; exact Or.inl rfl
    · rw [hs]; exact Or.inr ⟨[], by rw [hsec]⟩
    · obtain ⟨ht, _⟩ := runActs_okShape net (sendActs cfg env m) _ _ hrun
      rw [hs]
      dsimp only
      rw [ht, hsec]
      exact Or.inr ⟨actsEvs (sendActs cfg env m) ++ [Ev.destroyed], by
        simp [List.append_assoc]⟩
    · obtain ⟨δ, ht, _, _⟩ := runActs_run net (sendActs cfg env m)
        ⟨[Ev.connect cfg.secure], 0⟩
      rw [hrun] at ht
      rw [hs]
      dsimp only at ht ⊢
      rw [ht, hsec]
      exact Or.inr ⟨δ, by simp⟩

theorem claim_C4_witness :
    ((∀ e ∈ (send wCfgTLS wNet250 wEnv wMsg).2.trace, evIsTag .starttls e = false) ∧
     (∀ e ∈ (checkConnection wCfgTLS wNet250).2.trace, evIsTag .starttls e = false)) ∧
    (∃ rest, (send wCfg587 wNet250 wEnv wMsg).2.trace =
        Ev.connect false :: Ev.cmd .ehlo "EHLO localhost" ::
        Ev.cmd .starttls "STARTTLS" :: Ev.upgraded ::
        Ev.cmd .ehlo "EHLO localhost" :: rest ∧
        ∀ e ∈ rest, evIsTag .starttls e = false ∧ evIsTag .ehlo e = false) :=
  ⟨(claim_C4 wCfgTLS wNet250 wEnv wMsg).1 (Or.inl rfl),
   ((claim_C4 wCfg587 wNet250 wEnv wMsg).2.1 rfl (by decide)).1 (by decide)⟩

theorem countCmds_append (l₁ l₂ : List Ev) :
    countCmds (l₁ ++ l₂) = countCmds l₁ + countCmds l₂ := by
  simp [countCmds, List.filter_append]

theorem countCmds_actsEvs (l : List PAct) : countCmds (actsEvs l) = actsCost l := by
  induction l with
  | nil => rfl
  | cons a rest ih =>
    rw [actsEvs_cons, countCmds_append, actsCost_cons, ih]
    cases a <;> simp [actEvs, actCost, countCmds, List.filter, isCmdEv]

theorem actsEvs_rcptActs (l : List String) :
    actsEvs (rcptActs l) = l.map fun e => Ev.cmd .rcptTo ("RCPT TO:<" ++ e ++ ">") := by
  induction l with
  | nil => rfl
  | cons e rest ih =>
    simp only [rcptActs, List.map_cons] at ih ⊢
    rw [actsEvs_cons, ih]
    rfl

theorem actsEvs_authActs (cfg : SMTPConfig) :
    actsEvs (authActs cfg) =
      match cfg.auth with
      | none => []
      | some a => [Ev.cmd .authLogin "AUTH LOGIN", Ev.cmd .authUser (b64encode a.user),
                   Ev.cmd .authPass (b64encode a.pass)] := by
  unfold authActs
  cases cfg.auth with
  | none => rfl
  | some a => rfl

theorem actsEvs_starttlsActs (cfg : SMTPConfig) :
    actsEvs (starttlsActs cfg) =
      if needUpgrade cfg then
        [Ev.cmd .starttls "STARTTLS", Ev.upgraded, Ev.cmd .ehlo "EHLO localhost"]
      else [] := by
  unfold starttlsActs
  cases h : needUpgrade cfg <;> simp [h] <;> rfl

/-- The events of a successful `send` dialogue, spelled out. -/
theorem actsEvs_sendActs (cfg : SMTPConfig) (env : GenEnv) (m : EmailMessage) :
    actsEvs (sendActs cfg env m) =
      Ev.cmd .ehlo "EHLO localhost" ::
      ((if needUpgrade cfg then
          [Ev.cmd .starttls "STARTTLS", Ev.upgraded, Ev.cmd .ehlo "EHLO localhost"]
        else []) ++
       (match cfg.auth with
        | none => []
        | some a => [Ev.cmd .authLogin "AUTH LOGIN", Ev.cmd .authUser (b64encode a.user),
                     Ev.cmd .authPass (b64encode a.pass)]) ++
       (Ev.cmd .mailFrom ("MAIL FROM:<" ++ m.«from» ++ ">") ::
        ((m.«to».toList.map fun e => Ev.cmd .rcptTo ("RCPT TO:<" ++ e ++ ">")) ++
         (if truthyF m.cc then
            (fieldList m.cc).map fun e => Ev.cmd .rcptTo ("RCPT TO:<" ++ e ++ ">")
          else []) ++
         (if truthyF m.bcc then
            (fieldList m.bcc).map fun e => Ev.cmd .rcptTo ("RCPT TO:<" ++ e ++ ">")
          else []) ++
         [Ev.cmd .dataCmd "DATA", Ev.cmd .payload (buildEmailContent env m ++ "\r\n."),
          Ev.cmd .quit "QUIT"]))) := by
  unfold sendActs
  rw [actsEvs_append, actsEvs_append, actsEvs_append, actsEvs_append, actsEvs_append,
    actsEvs_append, actsEvs_append, actsEvs_starttlsActs, actsEvs_authActs,
    actsEvs_rcptActs]
  cases hcc : truthyF m.cc <;> cases hbcc : truthyF m.bcc <;>
    simp only [Bool.false_eq_true, if_true, if_false, actsEvs_rcptActs, actsEvs_nil] <;>
    simp [actsEvs, actEvs, List.append_assoc]

theorem countCmds_cons_nonCmd (e : Ev) (h : isCmdEv e = false) (l : List Ev) :
    countCmds (e :: l) = countCmds l := by
  simp [countCmds, List.filter_cons_of_neg, h]

/-- C7: one `send` call follows the fixed script EHLO, [STARTTLS, EHLO],
[AUTH LOGIN, base64 user, base64 pass], MAIL FROM, RCPT TO for `to` then
`cc` then `bcc`, DATA, framed payload ending in a lone dot line, QUIT.
(1) Whatever the network does, the trace after the connection event is a
prefix of that script's events (so no step out of order, none repeated,
and nothing after a failed step); (2) a successful call produces exactly
the script; (3) each written command consumes exactly one server reply
(commands await their own responses one at a time). -/
theorem claim_C7 (cfg : SMTPConfig) (net : Network) (env : GenEnv) (m : EmailMessage) :
    (firstInvalid m.«to».toList = none → validateEmail m.«from» = true →
      ∃ δ, (send cfg net env m).2.trace = Ev.connect cfg.secure :: δ ∧
        δ <+: actsEvs (sendActs cfg env m) ++ [Ev.destroyed]) ∧
    ((send cfg net env m).1.success = true →
      (send cfg net env m).2.trace =
        Ev.connect cfg.secure :: Ev.cmd .ehlo "EHLO localhost" ::
        ((if needUpgrade cfg then
            [Ev.cmd .starttls "STARTTLS", Ev.upgraded, Ev.cmd .ehlo "EHLO localhost"]
          else []) ++
         (match cfg.auth with
          | none => []
          | some a => [Ev.cmd .authLogin "AUTH LOGIN",
                       Ev.cmd .authUser (b64encode a.user),
                       Ev.cmd .authPass (b64encode a.pass)]) ++
         (Ev.cmd .mailFrom ("MAIL FROM:<" ++ m.«from» ++ ">") ::
          ((m.«to».toList.map fun e => Ev.cmd .rcptTo ("RCPT TO:<" ++ e ++ ">")) ++
           (if truthyF m.cc then
              (fieldList m.cc).map fun e => Ev.cmd .rcptTo ("RCPT TO:<" ++ e ++ ">")
            else []) ++
           (if truthyF m.bcc then
              (fieldList m.bcc).map fun e => Ev.cmd .rcptTo ("RCPT TO:<" ++ e ++ ">")
            else []) ++
           [Ev.cmd .dataCmd "DATA",
            Ev.cmd .payload (buildEmailContent env m ++ "\r\n."),
            Ev.cmd .quit "QUIT", Ev.destroyed])))) ∧
    ((send cfg net env m).2.idx = countCmds (send cfg net env m).2.trace) := by
  refine ⟨?_, ?_, ?_⟩
  · intro hfi hvf
    rcases send_cases cfg net env m with
      ⟨a, hfi', hs⟩ | ⟨hfi', hvf', hs⟩ |
      ⟨hfi', hvf', ⟨e, hcn, hs⟩ | ⟨hcn, ⟨st', hrun, hs⟩ | ⟨e, st', hrun, hs⟩⟩⟩
    · rw [hfi] at hfi'; cases hfi'
    · rw [hvf] at hvf'; cases hvf'
    · rw [hs]
      exact ⟨[], rfl, List.nil_prefix⟩
    · obtain ⟨ht, _⟩ := runActs_okShape net (sendActs cfg env m) _ _ hrun
      rw [hs]
      dsimp only
      rw [ht]
      exact ⟨actsEvs (sendActs cfg env m) ++ [Ev.destroyed],
        by simp [List.append_assoc], List.prefix_refl _⟩
    · obtain ⟨δ, ht, hpre, _⟩ := runActs_run net (sendActs cfg env m)
        ⟨[Ev.connect cfg.secure], 0⟩
      rw [hrun] at ht
      rw [hs]
      dsimp only at ht ⊢
      rw [ht]
      exact ⟨δ, by simp, hpre.trans (List.prefix_append _ _)⟩
  · intro hsucc
    rcases send_cases cfg net env m with
      ⟨a, hfi, hs⟩ | ⟨hfi, hvf, hs⟩ |
      ⟨hfi, hvf, ⟨e, hcn, hs⟩ | ⟨hcn, ⟨st', hrun, hs⟩ | ⟨e, st', hrun, hs⟩⟩⟩
    · rw [hs] at hsucc; cases hsucc
    · rw [hs] at hsucc; cases hsucc
    · rw [hs] at hsucc; cases hsucc
    · obtain ⟨ht, _⟩ := runActs_okShape net (sendActs cfg env m) _ _ hrun
      rw [hs]
      dsimp only
      rw [ht, actsEvs_sendActs]
      simp [List.append_assoc]
    · rw [hs] at hsucc; cases hsucc
  · rcases send_cases cfg net env m with
      ⟨a, hfi, hs⟩ | ⟨hfi, hvf, hs⟩ |
      ⟨hfi, hvf, ⟨e, hcn, hs⟩ | ⟨hcn, ⟨st', hrun, hs⟩ | ⟨e, st', hrun, hs⟩⟩⟩
    · rw [hs]; rfl
    · rw [hs]; rfl
    · rw [hs]
      simp [countCmds, List.filter, isCmdEv]
    · obtain ⟨ht, hix⟩ := runActs_okShape net (sendActs cfg env m) _ _ hrun
      rw [hs]
      dsimp only
      rw [ht, hix]
      dsimp only
      rw [countCmds_append, countCmds_append, countCmds_actsEvs]
      simp [countCmds, List.filter, isCmdEv]
    · obtain ⟨δ, ht, _, hix⟩ := runActs_run net (sendActs cfg env m)
        ⟨[Ev.connect cfg.secure], 0⟩
      rw [hrun] at ht hix
      rw [hs]
      dsimp only at ht hix ⊢
      rw [ht, hix]
      rw [show [Ev.connect cfg.secure] ++ δ = Ev.connect cfg.secure :: δ by simp,
        countCmds_cons_nonCmd (Ev.connect cfg.secure) rfl δ]
      omega

theorem claim_C7_witness :
    (∃ δ, (send wCfgFull wNet250 wEnv wMsgFull).2.trace =
        Ev.connect wCfgFull.secure :: δ ∧
        δ <+: actsEvs (sendActs wCfgFull wEnv wMsgFull) ++ [Ev.destroyed]) ∧
    ((send wCfgFull wNet250 wEnv wMsgFull).2.trace =
      Ev.connect wCfgFull.secure :: Ev.cmd .ehlo "EHLO localhost" ::
      ((if needUpgrade wCfgFull then
          [Ev.cmd .starttls "STARTTLS", Ev.upgraded, Ev.cmd .ehlo "EHLO localhost"]
        else []) ++
       (match wCfgFull.auth with
        | none => []
        | some a => [Ev.cmd .authLogin "AUTH LOGIN",
                     Ev.cmd .authUser (b64encode a.user),
                     Ev.cmd .authPass (b64encode a.pass)]) ++
       (Ev.cmd .mailFrom ("MAIL FROM:<" ++ wMsgFull.«from» ++ ">") ::
        ((wMsgFull.«to».toList.map fun e => Ev.cmd .rcptTo ("RCPT TO:<" ++ e ++ ">")) ++
         (if truthyF wMsgFull.cc then
            (fieldList wMsgFull.cc).map fun e => Ev.cmd .rcptTo ("RCPT TO:<" ++ e ++ ">")
          else []) ++
         (if truthyF wMsgFull.bcc then
            (fieldList wMsgFull.bcc).map fun e => Ev.cmd .rcptTo ("RCPT TO:<" ++ e ++ ">")
          else []) ++
         [Ev.cmd .dataCmd "DATA",
          Ev.cmd .payload (buildEmailContent wEnv wMsgFull ++ "\r\n."),
          Ev.cmd .quit "QUIT", Ev.destroyed])))) ∧
    ((send wCfgFull wNet250 wEnv wMsgFull).2.idx =
      countCmds (send wCfgFull wNet250 wEnv wMsgFull).2.trace) :=
  ⟨(claim_C7 wCfgFull wNet250 wEnv wMsgFull).1 (by decide) (by decide),
   (claim_C7 wCfgFull wNet250 wEnv wMsgFull).2.1 (by decide),
   (claim_C7 wCfgFull wNet250 wEnv wMsgFull).2.2⟩

/-- C5 (amended): on failure the socket is NOT torn down — `send` and
`checkConnection` return the failure without any `destroy`; the socket is
destroyed only on the all-success path, after `QUIT`, as the last event. -/
theorem claim_C5 (cfg : SMTPConfig) (net : Network) (env : GenEnv) (m : EmailMessage) :
    ((send cfg net env m).1.success = false →
      Ev.destroyed ∉ (send cfg net env m).2.trace) ∧
    ((send cfg net env m).1.success = true →
      ∃ pre, (send cfg net env m).2.trace = pre ++ [Ev.destroyed]) ∧
    ((checkConnection cfg net).1 = false →
      Ev.destroyed ∉ (checkConnection cfg net).2.trace) ∧
    ((checkConnection cfg net).1 = true →
      ∃ pre, (checkConnection cfg net).2.trace = pre ++ [Ev.destroyed]) := by
  refine ⟨?_, ?_, ?_, ?_⟩
  · intro hfail
    rcases send_cases cfg net env m with
      ⟨a, hfi, hs⟩ | ⟨hfi, hvf, hs⟩ |
      ⟨hfi, hvf, ⟨e, hcn, hs⟩ | ⟨hcn, ⟨st', hrun, hs⟩ | ⟨e, st', hrun, hs⟩⟩⟩
    · rw [hs]; simp
    · rw [hs]; simp
    · rw [hs]; simp
    · rw [hs] at hfail; cases hfail
    · obtain ⟨δ, ht, hpre, _⟩ := runActs_run net (sendActs cfg env m)
        ⟨[Ev.connect cfg.secure], 0⟩
      rw [hrun] at ht
      rw [hs]
      dsimp only at ht ⊢
      rw [ht]
      intro hmem
      simp only [List.cons_append, List.nil_append, List.mem_cons] at hmem
      rcases hmem with hmem | hmem
      · cases hmem
      · exact destroyed_not_actsEvs (sendActs cfg env m) (hpre.subset hmem)
  · intro hsucc
    rcases send_cases cfg net env m with
      ⟨a, hfi, hs⟩ | ⟨hfi, hvf, hs⟩ |
      ⟨hfi, hvf, ⟨e, hcn, hs⟩ | ⟨hcn, ⟨st', hrun, hs⟩ | ⟨e, st', hrun, hs⟩⟩⟩
    · rw [hs] at hsucc; cases hsucc
    · rw [hs] at hsucc; cases hsucc
    · rw [hs] at hsucc; cases hsucc
    · rw [hs]
      exact ⟨st'.trace, rfl⟩
    · rw [hs] at hsucc; cases hsucc
  · intro hfail
    rcases checkConnection_cases cfg net with
      ⟨e, hcn, hs⟩ | ⟨hcn, ⟨st', hrun, hs⟩ | ⟨e, st', hrun, hs⟩⟩
    · rw [hs]; simp
    · rw [hs] at hfail; cases hfail
    · obtain ⟨δ, ht, hpre, _⟩ := runActs_run net (checkActs cfg)
        ⟨[Ev.connect cfg.secure], 0⟩
      rw [hrun] at ht
      rw [hs]
      dsimp only at ht ⊢
      rw [ht]
      intro hmem
      simp only [List.cons_append, List.nil_append, List.mem_cons] at hmem
      rcases hmem with hmem | hmem
      · cases hmem
      · exact destroyed_not_actsEvs (checkActs cfg) (hpre.subset hmem)
  · intro hsucc
    rcases checkConnection_cases cfg net with
      ⟨e, hcn, hs⟩ | ⟨hcn, ⟨st', hrun, hs⟩ | ⟨e, st', hrun, hs⟩⟩
    · rw [hs] at hsucc; cases hsucc
    · rw [hs]
      exact ⟨st'.trace, rfl⟩
    · rw [hs] at hsucc; cases hsucc

theorem claim_C5_witness :
    (Ev.destroyed ∉ (send wCfgTLS wNet550 wEnv wMsg).2.trace) ∧
    (∃ pre, (send wCfgTLS wNet250 wEnv wMsg).2.trace = pre ++ [Ev.destroyed]) ∧
    (Ev.destroyed ∉ (checkConnection wCfgTLS wNet550).2.trace) ∧
    (∃ pre, (checkConnection wCfgTLS wNet250).2.trace = pre ++ [Ev.destroyed]) :=
  ⟨(claim_C5 wCfgTLS wNet550 wEnv wMsg).1 (by decide),
   (claim_C5 wCfgTLS wNet250 wEnv wMsg).2.1 (by decide),
   (claim_C5 wCfgTLS wNet550 wEnv wMsg).2.2.1 (by decide),
   (claim_C5 wCfgTLS wNet250 wEnv wMsg).2.2.2 (by decide)⟩

/-- C5 counterexample: against a server whose `EHLO` reply is a 550, the
socket is opened (the connection event is in the trace), the dialogue
fails, `send` returns the failure — and no destroy event ever happens, so
the claim "the socket is torn down before the call returns its failure
result" is false of the code. -/
theorem claim_C5_counterexample :
    Ev.connect true ∈ (send wCfgTLS wNet550 wEnv wMsg).2.trace ∧
    (send wCfgTLS wNet550 wEnv wMsg).1.success = false ∧
    Ev.destroyed ∉ (send wCfgTLS wNet550 wEnv wMsg).2.trace := by
  refine ⟨by decide, by decide, by decide⟩

theorem fieldAddrs_sub (o : Option StrField) (b : String) (h : b ∈ fieldAddrs o) :
    truthyF o = true ∧ b ∈ fieldList o := by
  cases o with
  | none => cases h
  | some f =>
    cases f with
    | one s =>
      unfold fieldAddrs at h
      dsimp only at h
      by_cases hs : s = ""
      · rw [if_pos hs] at h; cases h
      · rw [if_neg hs] at h
        rcases List.mem_singleton.1 h with rfl
        refine ⟨?_, by simp [fieldList, StrField.toList]⟩
        simp only [truthyF, Bool.not_eq_true']
        rw [Bool.eq_false_iff]
        intro hemp
        exact hs ((String.isEmpty_iff b).mp hemp)
    | many l =>
      exact ⟨rfl, h⟩

/-- C6: `bcc` is envelope-only.  (1) The transmitted content never depends
on `bcc`: two messages that differ only in their `bcc` field produce
character-for-character identical content (headers included), for the same
ambient date/message-id. (2) In every successful `send`, each address the
`bcc` field denotes gets its own `RCPT TO` command in the trace. -/
theorem claim_C6 (cfg : SMTPConfig) (net : Network) (env : GenEnv) (m : EmailMessage) :
    (∀ f : Option StrField,
      buildEmailContent env { m with bcc := f } = buildEmailContent env m) ∧
    (∀ b : String, (send cfg net env m).1.success = true → b ∈ fieldAddrs m.bcc →
      Ev.cmd .rcptTo ("RCPT TO:<" ++ b ++ ">") ∈ (send cfg net env m).2.trace) := by
  constructor
  · intro f
    rfl
  · intro b hsucc hb
    obtain ⟨htr, hmem⟩ := fieldAddrs_sub m.bcc b hb
    rcases send_cases cfg net env m with
      ⟨a, hfi, hs⟩ | ⟨hfi, hvf, hs⟩ |
      ⟨hfi, hvf, ⟨e, hcn, hs⟩ | ⟨hcn, ⟨st', hrun, hs⟩ | ⟨e, st', hrun, hs⟩⟩⟩
    · rw [hs] at hsucc; cases hsucc
    · rw [hs] at hsucc; cases hsucc
    · rw [hs] at hsucc; cases hsucc
    · obtain ⟨ht, _⟩ := runActs_okShape net (sendActs cfg env m) _ _ hrun
      rw [hs]
      dsimp only
      rw [ht, actsEvs_sendActs]
      have hev : Ev.cmd .rcptTo ("RCPT TO:<" ++ b ++ ">") ∈
          (if truthyF m.bcc then
            (fieldList m.bcc).map fun e => Ev.cmd .rcptTo ("RCPT TO:<" ++ e ++ ">")
          else []) := by
        rw [htr, if_pos rfl]
        exact List.mem_map.2 ⟨b, hmem, rfl⟩
      exact List.mem_append_left _ (List.mem_append_right _ (List.mem_cons_of_mem _
        (List.mem_append_right _ (List.mem_cons_of_mem _
        (List.mem_append_left _ (List.mem_append_right _ hev))))))
    · rw [hs] at hsucc; cases hsucc

theorem claim_C6_witness :
    Ev.cmd .rcptTo ("RCPT TO:<q@r.st>") ∈
      (send wCfgFull wNet250 wEnv wMsgFull).2.trace :=
  (claim_C6 wCfgFull wNet250 wEnv wMsgFull).2 "q@r.st" (by decide) (by decide)

theorem actsCost_authActs (cfg : SMTPConfig) :
    actsCost (authActs cfg) = if cfg.auth.isSome then 3 else 0 := by
  unfold authActs
  cases cfg.auth <;> rfl

theorem actsCost_starttlsActs (cfg : SMTPConfig) :
    actsCost (starttlsActs cfg) = if needUpgrade cfg then 2 else 0 := by
  unfold starttlsActs
  cases h : needUpgrade cfg <;> rfl

theorem actsCost_checkActs (cfg : SMTPConfig) :
    actsCost (checkActs cfg) =
      2 + (if needUpgrade cfg then 2 else 0) + (if cfg.auth.isSome then 3 else 0) := by
  unfold checkActs
  rw [actsCost_append, actsCost_append, actsCost_append, actsCost_authActs,
    actsCost_starttlsActs]
  simp [actsCost, actCost]
  omega

theorem pupgrade_mem_checkActs (cfg : SMTPConfig) :
    .pupgrade ∈ checkActs cfg ↔ needUpgrade cfg = true := by
  constructor
  · intro hm
    cases hnu : needUpgrade cfg
    · exfalso
      rw [checkActs_split_plain cfg hnu] at hm
      rcases List.mem_cons.1 hm with hm | hm
      · cases hm
      · unfold checkTail at hm
        rcases List.mem_append.1 hm with hm | hm
        · unfold authActs at hm
          cases hau : cfg.auth with
          | none => rw [hau] at hm; cases hm
          | some a =>
            rw [hau] at hm
            dsimp only at hm
            rcases List.mem_cons.1 hm with hm | hm
            · cases hm
            rcases List.mem_cons.1 hm with hm | hm
            · cases hm
            rcases List.mem_cons.1 hm with hm | hm
            · cases hm
            · cases hm
        · rcases List.mem_singleton.1 hm with hm
          cases hm
    · rfl
  · intro hnu
    rw [checkActs_split_tls cfg hnu]
    exact List.mem_cons_of_mem _ (List.mem_cons_of_mem _ (List.mem_cons_self _ _))

/-- C8 (amended): both operations are total on every network behaviour:
`send` always returns a result record (with `messageId` set and no error
exactly on success, and an error message and no id on failure), and
`checkConnection` always returns a boolean, which is `true` iff the
connection succeeds, the TLS upgrade succeeds whenever the STARTTLS path
is taken, and every reply of the dialogue — the final `QUIT`'s included,
which is more than "up to and including authentication" — passes the
status-code check. -/
theorem claim_C8 (cfg : SMTPConfig) (net : Network) (env : GenEnv) (m : EmailMessage) :
    ((checkConnection cfg net).1 = true ↔
      (net.connect = .ok () ∧ (needUpgrade cfg = true → net.upgrade = .ok ()) ∧
       ∀ j, j < 2 + (if needUpgrade cfg then 2 else 0) +
          (if cfg.auth.isSome then 3 else 0) → replyOk net j = true)) ∧
    ((send cfg net env m).1.success = true →
      (send cfg net env m).1.error = none ∧
      (send cfg net env m).1.messageId = some env.msgId2) ∧
    ((send cfg net env m).1.success = false →
      (send cfg net env m).1.messageId = none ∧
      ∃ e, (send cfg net env m).1.error = some e) := by
  refine ⟨⟨?_, ?_⟩, ?_, ?_⟩
  · intro htrue
    rcases checkConnection_cases cfg net with
      ⟨e, hcn, hs⟩ | ⟨hcn, ⟨st', hrun, hs⟩ | ⟨e, st', hrun, hs⟩⟩
    · rw [hs] at htrue; cases htrue
    · obtain ⟨_, hix⟩ := runActs_okShape net (checkActs cfg) _ _ hrun
      refine ⟨hcn, fun hnu => runActs_okUpgrade net (checkActs cfg) _ _ hrun
        ((pupgrade_mem_checkActs cfg).2 hnu), ?_⟩
      intro j hj
      refine runActs_okok net (checkActs cfg) _ _ hrun j (by dsimp only; omega) ?_
      rw [hix]
      dsimp only
      rw [actsCost_checkActs]
      omega
    · rw [hs] at htrue; cases htrue
  · rintro ⟨hcn, hup, hrep⟩
    rcases checkConnection_cases cfg net with
      ⟨e, hcn', hs⟩ | ⟨hcn', ⟨st', hrun, hs⟩ | ⟨e, st', hrun, hs⟩⟩
    · rw [hcn] at hcn'; cases hcn'
    · rw [hs]
    · exfalso
      obtain ⟨st'', hok⟩ := runActs_allOk net (checkActs cfg) ⟨[Ev.connect cfg.secure], 0⟩
        (by
          intro j _ hj
          dsimp only at hj
          rw [actsCost_checkActs] at hj
          exact hrep j (by omega))
        (fun hm => hup ((pupgrade_mem_checkActs cfg).1 hm))
      rw [hok] at hrun
      obtain ⟨h1, _⟩ := Prod.mk.inj hrun
      cases h1
  · intro hsucc
    rcases send_cases cfg net env m with
      ⟨a, hfi, hs⟩ | ⟨hfi, hvf, hs⟩ |
      ⟨hfi, hvf, ⟨e, hcn, hs⟩ | ⟨hcn, ⟨st', hrun, hs⟩ | ⟨e, st', hrun, hs⟩⟩⟩
    · rw [hs] at hsucc; cases hsucc
    · rw [hs] at hsucc; cases hsucc
    · rw [hs] at hsucc; cases hsucc
    · rw [hs]
      exact ⟨rfl, rfl⟩
    · rw [hs] at hsucc; cases hsucc
  · intro hfail
    rcases send_cases cfg net env m with
      ⟨a, hfi, hs⟩ | ⟨hfi, hvf, hs⟩ |
      ⟨hfi, hvf, ⟨e, hcn, hs⟩ | ⟨hcn, ⟨st', hrun, hs⟩ | ⟨e, st', hrun, hs⟩⟩⟩
    · rw [hs]; exact ⟨rfl, _, rfl⟩
    · rw [hs]; exact ⟨rfl, _, rfl⟩
    · rw [hs]; exact ⟨rfl, e, rfl⟩
    · rw [hs] at hfail; cases hfail
    · rw [hs]; exact ⟨rfl, e, rfl⟩

/-- C8 counterexample: every step up to and including authentication
succeeds (connect is ok and replies 0–3 — `EHLO`, `AUTH LOGIN`, user,
password — all pass), yet `checkConnection` returns `false`, because the
`QUIT` reply is a 500: the claimed "true iff every step up to and
including authentication succeeds" is false of the code. -/
theorem claim_C8_counterexample :
    (checkConnection wCfgAuth wNetQuitFail).1 = false ∧
    wNetQuitFail.connect = .ok () ∧
    replyOk wNetQuitFail 0 = true ∧ replyOk wNetQuitFail 1 = true ∧
    replyOk wNetQuitFail 2 = true ∧ replyOk wNetQuitFail 3 = true :=
  ⟨by decide, rfl, by decide, by decide, by decide, by decide⟩

theorem claim_C8_witness :
    ((checkConnection wCfgAuth wNet250).1 = true) ∧
    ((send wCfgFull wNet250 wEnv wMsgFull).1.error = none ∧
      (send wCfgFull wNet250 wEnv wMsgFull).1.messageId = some wEnv.msgId2) ∧
    ((send wCfgFull wNet550 wEnv wMsgFull).1.messageId = none ∧
      ∃ e, (send wCfgFull wNet550 wEnv wMsgFull).1.error = some e) :=
  ⟨(claim_C8 wCfgAuth wNet250 wEnv wMsg).1.2 ⟨rfl, fun _ => rfl, by decide⟩,
   (claim_C8 wCfgFull wNet250 wEnv wMsgFull).2.1 (by decide),
   (claim_C8 wCfgFull wNet550 wEnv wMsgFull).2.2 (by decide)⟩

theorem buildEmailContent_eq (env : GenEnv) (m : EmailMessage) :
    buildEmailContent env m = joinCRLF (headerLines env m ++ [""] ++ bodyLines m) := by
  unfold buildEmailContent headerLines bodyLines
  cases hh : truthyS m.html <;> cases htx : truthyS m.text <;>
    cases hcc : truthyF m.cc <;> cases hrt : truthyS m.replyTo <;>
    simp [hh, htx, hcc, hrt, List.append_assoc]

theorem joinCRLF_append_blank (l : List String) (h : l ≠ []) :
    joinCRLF (l ++ [""]) = joinCRLF l ++ "\r\n" := by
  induction l with
  | nil => exact absurd rfl h
  | cons x xs ih =>
    cases xs with
    | nil => simp [joinCRLF]
    | cons y t =>
      have hstep := ih (by simp)
      rw [List.cons_append]
      show x ++ "\r\n" ++ joinCRLF ((y :: t) ++ [""]) =
        (x ++ "\r\n" ++ joinCRLF (y :: t)) ++ "\r\n"
      rw [hstep]
      simp [String.append_assoc]

theorem joinCRLF_append_blank_body (l : List String) (h : l ≠ []) (b : String) :
    joinCRLF (l ++ ["", b]) = joinCRLF l ++ "\r\n\r\n" ++ b := by
  induction l with
  | nil => exact absurd rfl h
  | cons x xs ih =>
    cases xs with
    | nil =>
      show x ++ "\r\n" ++ ("" ++ "\r\n" ++ b) = x ++ "\r\n\r\n" ++ b
      rw [String.append_assoc]
      conv_rhs => rw [String.append_assoc]
      rfl
    | cons y t =>
      have hstep := ih (by simp)
      rw [List.cons_append]
      show x ++ "\r\n" ++ joinCRLF ((y :: t) ++ ["", b]) =
        (x ++ "\r\n" ++ joinCRLF (y :: t)) ++ "\r\n\r\n" ++ b
      rw [hstep]
      simp [String.append_assoc]

theorem headerLines_ne_nil (env : GenEnv) (m : EmailMessage) :
    headerLines env m ≠ [] := by
  simp [headerLines]

/-- C9 (amended): the transmitted content is the headers in exactly the
order From, To (comma-joined), Cc (iff `cc` is truthy), Reply-To (iff
`replyTo` is truthy), Subject, Date, Message-ID, then the
MIME-Version/`text/html` pair iff `html` is truthy and the `text/plain`
line otherwise — followed by one blank line and the body (`html` when
truthy, else `text` when truthy), or by a single trailing CRLF and no
body when neither is truthy (a present-but-empty `html`/`text` is falsy
in JS and treated as absent). -/
theorem claim_C9 (env : GenEnv) (m : EmailMessage) :
    buildEmailContent env m =
      joinCRLF (headerLines env m) ++
      (if truthyS m.html then "\r\n\r\n" ++ m.html.getD ""
       else if truthyS m.text then "\r\n\r\n" ++ m.text.getD ""
       else "\r\n") := by
  rw [buildEmailContent_eq]
  unfold bodyLines
  cases hh : truthyS m.html with
  | true =>
    simp only [if_true]
    rw [show headerLines env m ++ [""] ++ [m.html.getD ""] =
      headerLines env m ++ ["", m.html.getD ""] from by simp,
      joinCRLF_append_blank_body _ (headerLines_ne_nil env m), String.append_assoc]
  | false =>
    simp only [Bool.false_eq_true, if_false]
    cases htx : truthyS m.text with
    | true =>
      simp only [if_true]
      rw [show headerLines env m ++ [""] ++ [m.text.getD ""] =
        headerLines env m ++ ["", m.text.getD ""] from by simp,
        joinCRLF_append_blank_body _ (headerLines_ne_nil env m), String.append_assoc]
    | false =>
      simp only [Bool.false_eq_true, if_false, List.append_nil]
      rw [joinCRLF_append_blank _ (headerLines_ne_nil env m)]

/-- C9 counterexample: with `html` present but equal to `""`, the claim
says the content carries the MIME/`text/html` pair and the (empty) `html`
body, but the code treats the falsy `html` as absent and sends
`text/plain` with the `text` body, so the produced content differs from
the claimed one. -/
theorem claim_C9_counterexample :
    buildEmailContent wEnv wMsgHtmlEmpty ≠ claimedContentC9 wEnv wMsgHtmlEmpty := by
  decide

end SMTPV
